import Mathlib

/-!
Verification of the phpunit problem-matcher core (`src/phpunit/problem-matcher.ts`).

Strings are modelled as `List Char`.  JavaScript `String.prototype.replace`
with a global regex whose pattern is a literal character sequence is modelled
by `replaceAllL`: left-to-right, non-overlapping, replacements are not
rescanned.  `EscapeValue.change` iterates such replacements over a list of
(pattern, replacement) pairs, which `changeL` mirrors.
-/

def str (s : String) : List Char := s.toList

/-- Worker for `replaceAllL`; `skip` counts characters of a just-matched
occurrence that remain to be passed over.  Structural recursion on the text
keeps concrete evaluation kernel-reducible. -/
def repGo (p r : List Char) (skip : Nat) : List Char → List Char
  | [] => []
  | c :: cs =>
    match skip with
    | k + 1 => repGo p r k cs
    | 0 =>
      if p.isPrefixOf (c :: cs) && !p.isEmpty then
        r ++ repGo p r (p.length - 1) cs
      else
        c :: repGo p r 0 cs

/-- One global literal replace, as JS `value.replace(/pat/g, rep)` for a
literal pattern: scan left to right, replace non-overlapping occurrences,
never rescan the replacement text. -/
def replaceAllL (p r : List Char) (s : List Char) : List Char :=
  repGo p r 0 s

theorem repGo_skip (p r : List Char) (s : List Char) :
    ∀ k, repGo p r k s = replaceAllL p r (s.drop k) := by
  induction s with
  | nil => intro k; cases k <;> rfl
  | cons c cs ih =>
    intro k
    cases k with
    | zero => rfl
    | succ k' => simpa using ih k'

@[simp]
theorem replaceAllL_nil (p r : List Char) : replaceAllL p r [] = [] := rfl

@[simp]
theorem replaceAllL_cons (p r : List Char) (c : Char) (cs : List Char) :
    replaceAllL p r (c :: cs) =
      if p.isPrefixOf (c :: cs) && !p.isEmpty then
        r ++ replaceAllL p r (cs.drop (p.length - 1))
      else
        c :: replaceAllL p r cs := by
  show (if p.isPrefixOf (c :: cs) && !p.isEmpty then
      r ++ repGo p r (p.length - 1) cs
    else c :: repGo p r 0 cs) = _
  rw [repGo_skip, repGo_skip, List.drop_zero]

/-- `EscapeValue.change` on a string value: fold the replacement pairs. -/
def changeL (pairs : List (List Char × List Char)) (s : List Char) : List Char :=
  pairs.foldl (fun acc pr => replaceAllL pr.1 pr.2 acc) s

/-- `EscapeValue.escape`: replace the literal reserved characters
(`values.unescape`) by the two-character escape sequences (`values.escape`),
one global replace per pair, in source order. -/
def escape (s : List Char) : List Char :=
  changeL
    [(str "|", str "||"), (str "'", str "|'"), (str "\n", str "|n"),
     (str "\r", str "|r"), (str "]", str "|]"), (str "[", str "|[")] s

/-- `EscapeValue.unescape`: replace the two-character escape sequences
(`values.escape`) by the literal characters (`values.unescape`),
one global replace per pair, in source order. -/
def unescape (s : List Char) : List Char :=
  changeL
    [(str "||", str "|"), (str "|'", str "'"), (str "|n", str "\n"),
     (str "|r", str "\r"), (str "|]", str "]"), (str "|[", str "[")] s

example : escape (str "|n") = str "||n" := by
  simp [escape, changeL, str]
example : unescape (str "||n") = str "\n" := by
  simp [unescape, changeL, str]
example : unescape (escape (str "a[b]'c")) = str "a[b]'c" := by
  simp [escape, unescape, changeL, str]

/-- Character-wise flat map; `escape` and each intermediate stage of
`unescape` act token-wise, which these maps make explicit. -/
def mapFlat (f : Char → List Char) : List Char → List Char
  | [] => []
  | c :: cs => f c ++ mapFlat f cs

@[simp]
theorem mapFlat_nil (f : Char → List Char) : mapFlat f [] = [] := rfl

@[simp]
theorem mapFlat_cons (f : Char → List Char) (c : Char) (cs : List Char) :
    mapFlat f (c :: cs) = f c ++ mapFlat f cs := rfl

theorem mapFlat_singleton (s : List Char) : mapFlat (fun c => [c]) s = s := by
  induction s with
  | nil => rfl
  | cons c cs ih => simp [ih]

theorem mapFlat_congr {f g : Char → List Char} (hfg : ∀ c, f c = g c) (s : List Char) :
    mapFlat f s = mapFlat g s := by
  induction s with
  | nil => rfl
  | cons c cs ih => simp [hfg, ih]

/-- The token produced by `escape` for each character. -/
def escTok (c : Char) : List Char :=
  if c = '|' then str "||" else if c = '\'' then str "|'"
  else if c = '\n' then str "|n" else if c = '\r' then str "|r"
  else if c = ']' then str "|]" else if c = '[' then str "|[" else [c]

def eTok1 (c : Char) : List Char :=
  if c = '|' then str "||" else [c]

def eTok2 (c : Char) : List Char :=
  if c = '|' then str "||" else if c = '\'' then str "|'" else [c]

def eTok3 (c : Char) : List Char :=
  if c = '|' then str "||" else if c = '\'' then str "|'"
  else if c = '\n' then str "|n" else [c]

def eTok4 (c : Char) : List Char :=
  if c = '|' then str "||" else if c = '\'' then str "|'"
  else if c = '\n' then str "|n" else if c = '\r' then str "|r" else [c]

def eTok5 (c : Char) : List Char :=
  if c = '|' then str "||" else if c = '\'' then str "|'"
  else if c = '\n' then str "|n" else if c = '\r' then str "|r"
  else if c = ']' then str "|]" else [c]

theorem replaceAllL_single_append (p : Char) (r xs ys : List Char) :
    replaceAllL [p] r (xs ++ ys) = replaceAllL [p] r xs ++ replaceAllL [p] r ys := by
  induction xs with
  | nil => simp
  | cons c cs ih =>
    by_cases h : p = c
    · subst h
      simp [List.isPrefixOf, ih]
    · simp [List.isPrefixOf, h, Ne.symm h, ih]

theorem replaceAllL_single_mapFlat (p : Char) (r : List Char) (f : Char → List Char)
    (s : List Char) :
    replaceAllL [p] r (mapFlat f s) = mapFlat (fun c => replaceAllL [p] r (f c)) s := by
  induction s with
  | nil => simp
  | cons c cs ih => simp [replaceAllL_single_append, ih]

theorem escCharStep1 (c : Char) : replaceAllL ['|'] (str "||") [c] = eTok1 c := by
  by_cases h1 : c = '|'
  · subst h1; simp [eTok1, str, List.isPrefixOf]
  · simp [eTok1, h1, Ne.symm h1, List.isPrefixOf]

theorem escCharStep2 (c : Char) : replaceAllL ['\''] (str "|'") (eTok1 c) = eTok2 c := by
  by_cases h1 : c = '|'
  · subst h1; simp [eTok1, eTok2, str, List.isPrefixOf]
  · by_cases h2 : c = '\''
    · subst h2; simp [eTok1, eTok2, str, List.isPrefixOf]
    · simp [eTok1, eTok2, h1, h2, Ne.symm h2, List.isPrefixOf]

theorem escCharStep3 (c : Char) : replaceAllL ['\n'] (str "|n") (eTok2 c) = eTok3 c := by
  by_cases h1 : c = '|'
  · subst h1; simp [eTok2, eTok3, str, List.isPrefixOf]
  · by_cases h2 : c = '\''
    · subst h2; simp [eTok2, eTok3, str, List.isPrefixOf]
    · by_cases h3 : c = '\n'
      · subst h3; simp [eTok2, eTok3, h1, h2, str, List.isPrefixOf]
      · simp [eTok2, eTok3, h1, h2, h3, Ne.symm h3, List.isPrefixOf]

theorem escCharStep4 (c : Char) : replaceAllL ['\r'] (str "|r") (eTok3 c) = eTok4 c := by
  by_cases h1 : c = '|'
  · subst h1; simp [eTok3, eTok4, str, List.isPrefixOf]
  · by_cases h2 : c = '\''
    · subst h2; simp [eTok3, eTok4, str, List.isPrefixOf]
    · by_cases h3 : c = '\n'
      · subst h3; simp [eTok3, eTok4, h1, h2, str, List.isPrefixOf]
      · by_cases h4 : c = '\r'
        · subst h4; simp [eTok3, eTok4, h1, h2, h3, str, List.isPrefixOf]
        · simp [eTok3, eTok4, h1, h2, h3, h4, Ne.symm h4, List.isPrefixOf]

theorem escCharStep5 (c : Char) : replaceAllL [']'] (str "|]") (eTok4 c) = eTok5 c := by
  by_cases h1 : c = '|'
  · subst h1; simp [eTok4, eTok5, str, List.isPrefixOf]
  · by_cases h2 : c = '\''
    · subst h2; simp [eTok4, eTok5, str, List.isPrefixOf]
    · by_cases h3 : c = '\n'
      · subst h3; simp [eTok4, eTok5, h1, h2, str, List.isPrefixOf]
      · by_cases h4 : c = '\r'
        · subst h4; simp [eTok4, eTok5, h1, h2, h3, str, List.isPrefixOf]
        · by_cases h5 : c = ']'
          · subst h5; simp [eTok4, eTok5, h1, h2, h3, h4, str, List.isPrefixOf]
          · simp [eTok4, eTok5, h1, h2, h3, h4, h5, Ne.symm h5, List.isPrefixOf]

theorem escCharStep6 (c : Char) : replaceAllL ['['] (str "|[") (eTok5 c) = escTok c := by
  by_cases h1 : c = '|'
  · subst h1; simp [eTok5, escTok, str, List.isPrefixOf]
  · by_cases h2 : c = '\''
    · subst h2; simp [eTok5, escTok, str, List.isPrefixOf]
    · by_cases h3 : c = '\n'
      · subst h3; simp [eTok5, escTok, h1, h2, str, List.isPrefixOf]
      · by_cases h4 : c = '\r'
        · subst h4; simp [eTok5, escTok, h1, h2, h3, str, List.isPrefixOf]
        · by_cases h5 : c = ']'
          · subst h5; simp [eTok5, escTok, h1, h2, h3, h4, str, List.isPrefixOf]
          · by_cases h6 : c = '['
            · subst h6; simp [eTok5, escTok, h1, h2, h3, h4, h5, str, List.isPrefixOf]
            · simp [eTok5, escTok, h1, h2, h3, h4, h5, h6, Ne.symm h6, List.isPrefixOf]

/-- `escape` is the character-wise map sending each reserved character to its
two-character escape sequence. -/
theorem escape_eq_mapFlat (s : List Char) : escape s = mapFlat escTok s := by
  have h1 : replaceAllL (str "|") (str "||") s = mapFlat eTok1 s := by
    rw [show str "|" = ['|'] from rfl]
    conv_lhs => rw [← mapFlat_singleton s]
    rw [replaceAllL_single_mapFlat]
    exact mapFlat_congr escCharStep1 s
  have h2 : replaceAllL (str "'") (str "|'") (mapFlat eTok1 s) = mapFlat eTok2 s := by
    rw [show str "'" = ['\''] from rfl, replaceAllL_single_mapFlat]
    exact mapFlat_congr escCharStep2 s
  have h3 : replaceAllL (str "\n") (str "|n") (mapFlat eTok2 s) = mapFlat eTok3 s := by
    rw [show str "\n" = ['\n'] from rfl, replaceAllL_single_mapFlat]
    exact mapFlat_congr escCharStep3 s
  have h4 : replaceAllL (str "\r") (str "|r") (mapFlat eTok3 s) = mapFlat eTok4 s := by
    rw [show str "\r" = ['\r'] from rfl, replaceAllL_single_mapFlat]
    exact mapFlat_congr escCharStep4 s
  have h5 : replaceAllL (str "]") (str "|]") (mapFlat eTok4 s) = mapFlat eTok5 s := by
    rw [show str "]" = [']'] from rfl, replaceAllL_single_mapFlat]
    exact mapFlat_congr escCharStep5 s
  have h6 : replaceAllL (str "[") (str "|[") (mapFlat eTok5 s) = mapFlat escTok s := by
    rw [show str "[" = ['['] from rfl, replaceAllL_single_mapFlat]
    exact mapFlat_congr escCharStep6 s
  show replaceAllL (str "[") (str "|[")
      (replaceAllL (str "]") (str "|]")
        (replaceAllL (str "\r") (str "|r")
          (replaceAllL (str "\n") (str "|n")
            (replaceAllL (str "'") (str "|'")
              (replaceAllL (str "|") (str "||") s))))) = mapFlat escTok s
  rw [h1, h2, h3, h4, h5, h6]

/-- String state after the `||`-collapsing step of `unescape`, token-wise. -/
def uTok1 (c : Char) : List Char :=
  if c = '|' then ['|'] else if c = '\'' then str "|'"
  else if c = '\n' then str "|n" else if c = '\r' then str "|r"
  else if c = ']' then str "|]" else if c = '[' then str "|[" else [c]

def uTok2 (c : Char) : List Char :=
  if c = '|' then ['|'] else if c = '\n' then str "|n"
  else if c = '\r' then str "|r" else if c = ']' then str "|]"
  else if c = '[' then str "|[" else [c]

def uTok3 (c : Char) : List Char :=
  if c = '|' then ['|'] else if c = '\r' then str "|r"
  else if c = ']' then str "|]" else if c = '[' then str "|[" else [c]

def uTok4 (c : Char) : List Char :=
  if c = '|' then ['|'] else if c = ']' then str "|]"
  else if c = '[' then str "|[" else [c]

def uTok5 (c : Char) : List Char :=
  if c = '|' then ['|'] else if c = '[' then str "|[" else [c]

/-- `s` has no occurrence of the two-character substring `a` followed by `b`. -/
def noPair (a b : Char) : List Char → Bool
  | [] => true
  | [_] => true
  | x :: y :: rest => !(x == a && y == b) && noPair a b (y :: rest)

theorem noPair_tail {a b c : Char} {s : List Char} (h : noPair a b (c :: s) = true) :
    noPair a b s = true := by
  cases s with
  | nil => rfl
  | cons y rest =>
    simp [noPair] at h
    simpa [noPair] using h.2

theorem noPair_head {a b y : Char} {rest : List Char}
    (h : noPair a b (a :: y :: rest) = true) : y ≠ b := by
  simp [noPair] at h
  exact h.1

theorem uTok1_no_lead_quote (s : List Char) :
    ['\''].isPrefixOf (mapFlat uTok1 s) = false := by
  cases s with
  | nil => rfl
  | cons c cs =>
    by_cases h1 : c = '|'
    · subst h1; simp [uTok1, List.isPrefixOf]
    · by_cases h2 : c = '\''
      · subst h2; simp [uTok1, h1, str, List.isPrefixOf]
      · by_cases h3 : c = '\n'
        · subst h3; simp [uTok1, h1, h2, str, List.isPrefixOf]
        · by_cases h4 : c = '\r'
          · subst h4; simp [uTok1, h1, h2, h3, str, List.isPrefixOf]
          · by_cases h5 : c = ']'
            · subst h5; simp [uTok1, h1, h2, h3, h4, str, List.isPrefixOf]
            · by_cases h6 : c = '['
              · subst h6; simp [uTok1, h1, h2, h3, h4, h5, str, List.isPrefixOf]
              · simp [uTok1, h1, h2, h3, h4, h5, h6, Ne.symm h2, List.isPrefixOf]

theorem uTok2_no_lead_n (c : Char) (rest : List Char) (hc : c ≠ 'n') :
    ['n'].isPrefixOf (uTok2 c ++ rest) = false := by
  by_cases h1 : c = '|'
  · subst h1; simp [uTok2, List.isPrefixOf]
  · by_cases h3 : c = '\n'
    · subst h3; simp [uTok2, h1, str, List.isPrefixOf]
    · by_cases h4 : c = '\r'
      · subst h4; simp [uTok2, h1, h3, str, List.isPrefixOf]
      · by_cases h5 : c = ']'
        · subst h5; simp [uTok2, h1, h3, h4, str, List.isPrefixOf]
        · by_cases h6 : c = '['
          · subst h6; simp [uTok2, h1, h3, h4, h5, str, List.isPrefixOf]
          · simp [uTok2, h1, h3, h4, h5, h6, Ne.symm hc, List.isPrefixOf]

theorem uTok3_no_lead_r (c : Char) (rest : List Char) (hc : c ≠ 'r') :
    ['r'].isPrefixOf (uTok3 c ++ rest) = false := by
  by_cases h1 : c = '|'
  · subst h1; simp [uTok3, List.isPrefixOf]
  · by_cases h4 : c = '\r'
    · subst h4; simp [uTok3, h1, str, List.isPrefixOf]
    · by_cases h5 : c = ']'
      · subst h5; simp [uTok3, h1, h4, str, List.isPrefixOf]
      · by_cases h6 : c = '['
        · subst h6; simp [uTok3, h1, h4, h5, str, List.isPrefixOf]
        · simp [uTok3, h1, h4, h5, h6, Ne.symm hc, List.isPrefixOf]

theorem uTok4_no_lead_rbracket (s : List Char) :
    [']'].isPrefixOf (mapFlat uTok4 s) = false := by
  cases s with
  | nil => rfl
  | cons c cs =>
    by_cases h1 : c = '|'
    · subst h1; simp [uTok4, List.isPrefixOf]
    · by_cases h5 : c = ']'
      · subst h5; simp [uTok4, h1, str, List.isPrefixOf]
      · by_cases h6 : c = '['
        · subst h6; simp [uTok4, h1, h5, str, List.isPrefixOf]
        · simp [uTok4, h1, h5, h6, Ne.symm h5, List.isPrefixOf]

theorem uTok5_no_lead_lbracket (s : List Char) :
    ['['].isPrefixOf (mapFlat uTok5 s) = false := by
  cases s with
  | nil => rfl
  | cons c cs =>
    by_cases h1 : c = '|'
    · subst h1; simp [uTok5, List.isPrefixOf]
    · by_cases h6 : c = '['
      · subst h6; simp [uTok5, h1, str, List.isPrefixOf]
      · simp [uTok5, h1, h6, Ne.symm h6, List.isPrefixOf]

theorem replaceAllL_two (a b : Char) (r : List Char) (c : Char) (cs : List Char) :
    replaceAllL [a, b] r (c :: cs) =
      if (a == c) && [b].isPrefixOf cs then r ++ replaceAllL [a, b] r (cs.drop 1)
      else c :: replaceAllL [a, b] r cs := by
  rw [replaceAllL_cons]
  simp [List.isPrefixOf]

/-- Step 1 of `unescape` (`||` → `|`) on an escaped string. -/
theorem uStep1 (s : List Char) :
    replaceAllL ['|', '|'] ['|'] (mapFlat escTok s) = mapFlat uTok1 s := by
  induction s with
  | nil => simp
  | cons c cs ih =>
    by_cases h1 : c = '|'
    · subst h1
      simp [escTok, uTok1, str, replaceAllL_two, List.isPrefixOf, ih]
    · by_cases h2 : c = '\''
      · subst h2
        simp [escTok, uTok1, h1, str, replaceAllL_two, List.isPrefixOf, ih]
      · by_cases h3 : c = '\n'
        · subst h3
          simp [escTok, uTok1, h1, h2, str, replaceAllL_two, List.isPrefixOf, ih]
        · by_cases h4 : c = '\r'
          · subst h4
            simp [escTok, uTok1, h1, h2, h3, str, replaceAllL_two, List.isPrefixOf, ih]
          · by_cases h5 : c = ']'
            · subst h5
              simp [escTok, uTok1, h1, h2, h3, h4, str, replaceAllL_two,
                List.isPrefixOf, ih]
            · by_cases h6 : c = '['
              · subst h6
                simp [escTok, uTok1, h1, h2, h3, h4, h5, str, replaceAllL_two,
                  List.isPrefixOf, ih]
              · simp [escTok, uTok1, h1, h2, h3, h4, h5, h6, Ne.symm h1,
                  replaceAllL_two, List.isPrefixOf, ih]

/-- Step 2 of `unescape` (`|'` → `'`). -/
theorem uStep2 (s : List Char) :
    replaceAllL ['|', '\''] ['\''] (mapFlat uTok1 s) = mapFlat uTok2 s := by
  induction s with
  | nil => simp
  | cons c cs ih =>
    by_cases h1 : c = '|'
    · subst h1
      simp [uTok1, uTok2, str, replaceAllL_two, uTok1_no_lead_quote, ih]
    · by_cases h2 : c = '\''
      · subst h2
        simp [uTok1, uTok2, h1, str, replaceAllL_two, List.isPrefixOf, ih]
      · by_cases h3 : c = '\n'
        · subst h3
          simp [uTok1, uTok2, h1, h2, str, replaceAllL_two, List.isPrefixOf, ih]
        · by_cases h4 : c = '\r'
          · subst h4
            simp [uTok1, uTok2, h1, h2, h3, str, replaceAllL_two, List.isPrefixOf, ih]
          · by_cases h5 : c = ']'
            · subst h5
              simp [uTok1, uTok2, h1, h2, h3, h4, str, replaceAllL_two,
                List.isPrefixOf, ih]
            · by_cases h6 : c = '['
              · subst h6
                simp [uTok1, uTok2, h1, h2, h3, h4, h5, str, replaceAllL_two,
                  List.isPrefixOf, ih]
              · simp [uTok1, uTok2, h1, h2, h3, h4, h5, h6, Ne.symm h1,
                  replaceAllL_two, List.isPrefixOf, ih]

/-- Step 3 of `unescape` (`|n` → newline).  Needs the absence of a literal
pipe directly followed by a literal letter `n`: such a pair survives escaping
as `||n`, whose tail is wrongly decoded here. -/
theorem uStep3 (s : List Char) (h : noPair '|' 'n' s = true) :
    replaceAllL ['|', 'n'] ['\n'] (mapFlat uTok2 s) = mapFlat uTok3 s := by
  induction s with
  | nil => simp
  | cons c cs ih =>
    have ihtail := ih (noPair_tail h)
    by_cases h1 : c = '|'
    · subst h1
      cases cs with
      | nil => simp [uTok2, uTok3, replaceAllL_two, List.isPrefixOf]
      | cons y ys =>
        have hy : y ≠ 'n' := noPair_head h
        have hpre : ['n'].isPrefixOf (uTok2 y ++ mapFlat uTok2 ys) = false :=
          uTok2_no_lead_n y (mapFlat uTok2 ys) hy
        have ih' := ihtail
        simp only [mapFlat_cons] at ih'
        simp only [mapFlat_cons]
        rw [show uTok2 '|' = ['|'] from rfl, show uTok3 '|' = ['|'] from rfl,
          List.singleton_append, List.singleton_append, replaceAllL_two, hpre]
        simp [ih']
    · by_cases h3 : c = '\n'
      · subst h3
        simp [uTok2, uTok3, h1, str, replaceAllL_two, List.isPrefixOf, ihtail]
      · by_cases h4 : c = '\r'
        · subst h4
          simp [uTok2, uTok3, h1, h3, str, replaceAllL_two, List.isPrefixOf, ihtail]
        · by_cases h5 : c = ']'
          · subst h5
            simp [uTok2, uTok3, h1, h3, h4, str, replaceAllL_two,
              List.isPrefixOf, ihtail]
          · by_cases h6 : c = '['
            · subst h6
              simp [uTok2, uTok3, h1, h3, h4, h5, str, replaceAllL_two,
                List.isPrefixOf, ihtail]
            · simp [uTok2, uTok3, h1, h3, h4, h5, h6, Ne.symm h1,
                replaceAllL_two, List.isPrefixOf, ihtail]

/-- Step 4 of `unescape` (`|r` → carriage return), same proviso for `|r`. -/
theorem uStep4 (s : List Char) (h : noPair '|' 'r' s = true) :
    replaceAllL ['|', 'r'] ['\r'] (mapFlat uTok3 s) = mapFlat uTok4 s := by
  induction s with
  | nil => simp
  | cons c cs ih =>
    have ihtail := ih (noPair_tail h)
    by_cases h1 : c = '|'
    · subst h1
      cases cs with
      | nil => simp [uTok3, uTok4, replaceAllL_two, List.isPrefixOf]
      | cons y ys =>
        have hy : y ≠ 'r' := noPair_head h
        have hpre : ['r'].isPrefixOf (uTok3 y ++ mapFlat uTok3 ys) = false :=
          uTok3_no_lead_r y (mapFlat uTok3 ys) hy
        have ih' := ihtail
        simp only [mapFlat_cons] at ih'
        simp only [mapFlat_cons]
        rw [show uTok3 '|' = ['|'] from rfl, show uTok4 '|' = ['|'] from rfl,
          List.singleton_append, List.singleton_append, replaceAllL_two, hpre]
        simp [ih']
    · by_cases h4 : c = '\r'
      · subst h4
        simp [uTok3, uTok4, h1, str, replaceAllL_two, List.isPrefixOf, ihtail]
      · by_cases h5 : c = ']'
        · subst h5
          simp [uTok3, uTok4, h1, h4, str, replaceAllL_two, List.isPrefixOf, ihtail]
        · by_cases h6 : c = '['
          · subst h6
            simp [uTok3, uTok4, h1, h4, h5, str, replaceAllL_two,
              List.isPrefixOf, ihtail]
          · simp [uTok3, uTok4, h1, h4, h5, h6, Ne.symm h1, replaceAllL_two,
              List.isPrefixOf, ihtail]

/-- Step 5 of `unescape` (`|]` → `]`). -/
theorem uStep5 (s : List Char) :
    replaceAllL ['|', ']'] [']'] (mapFlat uTok4 s) = mapFlat uTok5 s := by
  induction s with
  | nil => simp
  | cons c cs ih =>
    by_cases h1 : c = '|'
    · subst h1
      simp [uTok4, uTok5, str, replaceAllL_two, uTok4_no_lead_rbracket, ih]
    · by_cases h5 : c = ']'
      · subst h5
        simp [uTok4, uTok5, h1, str, replaceAllL_two, List.isPrefixOf, ih]
      · by_cases h6 : c = '['
        · subst h6
          simp [uTok4, uTok5, h1, h5, str, replaceAllL_two, List.isPrefixOf, ih]
        · simp [uTok4, uTok5, h1, h5, h6, Ne.symm h1, replaceAllL_two,
            List.isPrefixOf, ih]

/-- Step 6 of `unescape` (`|[` → `[`) recovers the original string. -/
theorem uStep6 (s : List Char) :
    replaceAllL ['|', '['] ['['] (mapFlat uTok5 s) = s := by
  induction s with
  | nil => simp
  | cons c cs ih =>
    by_cases h1 : c = '|'
    · subst h1
      simp [uTok5, str, replaceAllL_two, uTok5_no_lead_lbracket, ih]
    · by_cases h6 : c = '['
      · subst h6
        simp [uTok5, h1, str, replaceAllL_two, List.isPrefixOf, ih]
      · simp [uTok5, h1, h6, Ne.symm h1, replaceAllL_two, List.isPrefixOf, ih]

theorem unescape_escape_of_noPair (s : List Char)
    (hn : noPair '|' 'n' s = true) (hr : noPair '|' 'r' s = true) :
    unescape (escape s) = s := by
  rw [escape_eq_mapFlat]
  show replaceAllL (str "|[") (str "[")
      (replaceAllL (str "|]") (str "]")
        (replaceAllL (str "|r") (str "\r")
          (replaceAllL (str "|n") (str "\n")
            (replaceAllL (str "|'") (str "'")
              (replaceAllL (str "||") (str "|") (mapFlat escTok s)))))) = s
  rw [show (str "||") = ['|', '|'] from rfl, show (str "|") = ['|'] from rfl,
    show (str "|'") = ['|', '\''] from rfl, show (str "'") = ['\''] from rfl,
    show (str "|n") = ['|', 'n'] from rfl, show (str "\n") = ['\n'] from rfl,
    show (str "|r") = ['|', 'r'] from rfl, show (str "\r") = ['\r'] from rfl,
    show (str "|]") = ['|', ']'] from rfl, show (str "]") = [']'] from rfl,
    show (str "|[") = ['|', '['] from rfl, show (str "[") = ['['] from rfl]
  rw [uStep1 s, uStep2 s, uStep3 s hn, uStep4 s hr, uStep5 s, uStep6 s]

/-- C1, counterexample: the round-trip claim fails on the string `|n` (a
literal pipe followed by the letter `n`, built from the reserved pipe and
arbitrary other text, free of the placeholder token).  `escape` turns it into
`||n`; `unescape` first collapses `||` to `|` and then wrongly decodes the
resulting `|n` into a newline. -/
theorem C1_roundtrip_cx :
    escape (str "|n") = str "||n" ∧
    unescape (escape (str "|n")) = str "\n" ∧
    unescape (escape (str "|n")) ≠ str "|n" := by
  refine ⟨by simp [escape, changeL, str], by simp [escape, unescape, changeL, str], ?_⟩
  intro hcontra
  have hv : unescape (escape (str "|n")) = str "\n" := by
    simp [escape, unescape, changeL, str]
  rw [hv] at hcontra
  simp [str] at hcontra

/-- C1 (amended): for every string in which a literal `|` is never directly
followed by the letter `n` or the letter `r`,
`unescape (escape s) = s`.  (The placeholder token of
`escapeSingleQuote` plays no role in `escape`/`unescape`.) -/
theorem C1_roundtrip (s : List Char)
    (hn : noPair '|' 'n' s = true) (hr : noPair '|' 'r' s = true) :
    unescape (escape s) = s :=
  unescape_escape_of_noPair s hn hr

theorem C1_roundtrip_witness :
    noPair '|' 'n' (str "[a]'|x\r") = true ∧ noPair '|' 'r' (str "[a]'|x\r") = true ∧
    unescape (escape (str "[a]'|x\r")) = str "[a]'|x\r" :=
  ⟨by decide, by decide, C1_roundtrip (str "[a]'|x\r") (by decide) (by decide)⟩

/-!
`Parser.parseLocationHint`: strip the `php_qn://` scheme, collapse `::\`
into `::`, split on `::`; the first segment is the file, the rest re-joined
by `::` is the id, and the testId is the id with the data-set suffix
removed by `id.replace(/\swith\sdata\sset\s[#"].+$/, '')`.

That replace is modelled by `stripDataSet`: truncate at the leftmost
position where one whitespace character, `with`, one whitespace, `data`,
one whitespace, `set`, one whitespace, then `#` or `"` and at least one
further character occur, with no line terminator among the remaining
characters (JS `.` does not match line terminators, and `$` is the very end
of the string).
-/

/-- JS `\s`, the full ECMAScript whitespace class: ASCII whitespace, NBSP
(U+00A0), Ogham space (U+1680), the U+2000 – U+200A spaces, the line and
paragraph separators (U+2028/U+2029), U+202F, U+205F, U+3000 and the BOM
(U+FEFF). -/
def isWsChar (c : Char) : Bool :=
  c = ' ' || c = '\t' || c = '\n' || c = '\r' || c = '\x0b' || c = '\x0c' ||
  c = Char.ofNat 160 || c = Char.ofNat 5760 ||
  c = Char.ofNat 8192 || c = Char.ofNat 8193 || c = Char.ofNat 8194 ||
  c = Char.ofNat 8195 || c = Char.ofNat 8196 || c = Char.ofNat 8197 ||
  c = Char.ofNat 8198 || c = Char.ofNat 8199 || c = Char.ofNat 8200 ||
  c = Char.ofNat 8201 || c = Char.ofNat 8202 ||
  c = Char.ofNat 8232 || c = Char.ofNat 8233 || c = Char.ofNat 8239 ||
  c = Char.ofNat 8287 || c = Char.ofNat 12288 || c = Char.ofNat 65279

/-- JS `.` without the `s` flag: any character except a line terminator. -/
def isDotChar (c : Char) : Bool :=
  !(c = '\n' || c = '\r' || c = Char.ofNat 8232 || c = Char.ofNat 8233)

/-- Does `/\swith\sdata\sset\s[#"].+$/` match starting at the head of `s`? -/
def dsMatchHere : List Char → Bool
  | w1 :: 'w' :: 'i' :: 't' :: 'h' :: w2 :: 'd' :: 'a' :: 't' :: 'a' ::
      w3 :: 's' :: 'e' :: 't' :: w4 :: q :: rest =>
    isWsChar w1 && isWsChar w2 && isWsChar w3 && isWsChar w4 &&
    (q == '#' || q == '"') && !rest.isEmpty && rest.all isDotChar
  | _ => false

/-- `id.replace(/\swith\sdata\sset\s[#"].+$/, '')`: truncate at the leftmost
match (the match necessarily extends to the end of the string). -/
def stripDataSet : List Char → List Char
  | [] => []
  | c :: cs => if dsMatchHere (c :: cs) then [] else c :: stripDataSet cs

/-- Worker for `splitOnL`, with the same skip-counter device as `repGo`. -/
def splitGo (sep : List Char) (skip : Nat) : List Char → List (List Char)
  | [] => [[]]
  | c :: cs =>
    match skip with
    | k + 1 => splitGo sep k cs
    | 0 =>
      if sep.isPrefixOf (c :: cs) && !sep.isEmpty then
        [] :: splitGo sep (sep.length - 1) cs
      else
        match splitGo sep 0 cs with
        | [] => [[c]]
        | h :: t => (c :: h) :: t

/-- JS `String.prototype.split` with a non-empty literal separator. -/
def splitOnL (sep : List Char) (s : List Char) : List (List Char) :=
  splitGo sep 0 s

theorem splitGo_skip (sep : List Char) (s : List Char) :
    ∀ k, splitGo sep k s = splitOnL sep (s.drop k) := by
  induction s with
  | nil => intro k; cases k <;> rfl
  | cons c cs ih =>
    intro k
    cases k with
    | zero => rfl
    | succ k' => simpa using ih k'

@[simp]
theorem splitOnL_nil (sep : List Char) : splitOnL sep [] = [[]] := rfl

@[simp]
theorem splitOnL_cons (sep : List Char) (c : Char) (cs : List Char) :
    splitOnL sep (c :: cs) =
      if sep.isPrefixOf (c :: cs) && !sep.isEmpty then
        [] :: splitOnL sep (cs.drop (sep.length - 1))
      else
        match splitOnL sep cs with
        | [] => [[c]]
        | h :: t => (c :: h) :: t := by
  show (if sep.isPrefixOf (c :: cs) && !sep.isEmpty then
      [] :: splitGo sep (sep.length - 1) cs
    else
      match splitGo sep 0 cs with
      | [] => [[c]]
      | h :: t => (c :: h) :: t) = _
  rw [splitGo_skip]
  rfl

structure LocHint where
  file : List Char
  id : List Char
  testId : List Char
deriving DecidableEq

/-- `Parser.parseLocationHint` on a present location hint string. -/
def parseLocationHint (hint : List Char) : LocHint :=
  let s1 := if (str "php_qn://").isPrefixOf hint then hint.drop 9 else hint
  let s2 := replaceAllL (str "::\\") (str "::") s1
  match splitOnL (str "::") s2 with
  | [] => ⟨[], [], []⟩
  | f :: rest =>
    let id := List.intercalate (str "::") rest
    ⟨f, id, stripDataSet id⟩

example :
    parseLocationHint (str "php_qn://src/FileTest.php::Ns\\FileTest::test_foo") =
      ⟨str "src/FileTest.php", str "Ns\\FileTest::test_foo",
       str "Ns\\FileTest::test_foo"⟩ := by
  decide

theorem dsMatchHere_suffix (q : Char) (rest : List Char)
    (hq : q = '#' ∨ q = '"') (hrest : rest ≠ []) (hdot : rest.all isDotChar = true) :
    dsMatchHere (str " with data set " ++ q :: rest) = true := by
  have hre : rest.isEmpty = false := by
    cases rest with
    | nil => exact absurd rfl hrest
    | cons a l => rfl
  have hred : dsMatchHere (str " with data set " ++ q :: rest) =
      (isWsChar ' ' && isWsChar ' ' && isWsChar ' ' && isWsChar ' ' &&
       (q == '#' || q == '"') && !rest.isEmpty && rest.all isDotChar) := rfl
  rw [hred]
  rcases hq with h | h <;> subst h <;> simp [isWsChar, hre, hdot]

/-- The data-set replace truncates exactly at the suffix when no earlier
position of the string matches the pattern. -/
theorem stripDataSet_append (pre : List Char) (q : Char) (rest : List Char)
    (hq : q = '#' ∨ q = '"') (hrest : rest ≠ []) (hdot : rest.all isDotChar = true)
    (hpre : ∀ i < pre.length,
      dsMatchHere (List.drop i (pre ++ (str " with data set " ++ q :: rest))) = false) :
    stripDataSet (pre ++ (str " with data set " ++ q :: rest)) = pre := by
  induction pre with
  | nil =>
    have hd := dsMatchHere_suffix q rest hq hrest hdot
    rw [List.nil_append]
    rw [show (str " with data set " ++ q :: rest) =
      ' ' :: ('w' :: 'i' :: 't' :: 'h' :: ' ' :: 'd' :: 'a' :: 't' :: 'a' ::
        ' ' :: 's' :: 'e' :: 't' :: ' ' :: q :: rest) from rfl] at hd ⊢
    simp [stripDataSet, hd]
  | cons c cs ih =>
    have h0 : dsMatchHere (c :: (cs ++ (str " with data set " ++ q :: rest))) = false := by
      have := hpre 0 (by simp)
      simpa using this
    have htail : ∀ i < cs.length,
        dsMatchHere (List.drop i (cs ++ (str " with data set " ++ q :: rest))) = false := by
      intro i hi
      have := hpre (i + 1) (by simp; omega)
      simpa using this
    rw [List.cons_append]
    simp [stripDataSet, h0, ih htail]

/-- C7, counterexample: for the id `a with data set #1 with data set #2` —
which ends in the data-set suffix ` with data set #2` — the code removes from
the *leftmost* occurrence of the pattern onwards (the regex search is
leftmost and `.+$` runs to the end of the string), yielding `a` instead of
`a with data set #1`. -/
theorem C7_locationHint_cx :
    (parseLocationHint
        (str "php_qn://f.php::a with data set #1 with data set #2")).id =
      str "a with data set #1 with data set #2" ∧
    (parseLocationHint
        (str "php_qn://f.php::a with data set #1 with data set #2")).testId =
      str "a" ∧
    (parseLocationHint
        (str "php_qn://f.php::a with data set #1 with data set #2")).testId ≠
      str "a with data set #1" := by
  refine ⟨by decide, by decide, by decide⟩

/-- C7 (amended): `php_qn://src/FileTest.php::Ns\FileTest::test_foo` decodes
to file `src/FileTest.php`, id `Ns\FileTest::test_foo`, testId equal to the
id; for an id carrying a single trailing ` with data set #N` /
` with data set "name"` suffix the testId drops exactly that suffix while the
id keeps it; and in general testId is the id truncated at the *leftmost*
position matching `\swith\sdata\sset\s[#"].+$` (whitespace, `with`,
whitespace, `data`, whitespace, `set`, whitespace, `#` or `"`, then at least
one character and no line terminator up to the end). -/
theorem C7_locationHint :
    (parseLocationHint (str "php_qn://src/FileTest.php::Ns\\FileTest::test_foo") =
      ⟨str "src/FileTest.php", str "Ns\\FileTest::test_foo",
       str "Ns\\FileTest::test_foo"⟩) ∧
    (parseLocationHint (str "php_qn://f.php::C::m with data set #3") =
      ⟨str "f.php", str "C::m with data set #3", str "C::m"⟩) ∧
    (parseLocationHint (str "php_qn://f.php::C::m with data set \"case\"") =
      ⟨str "f.php", str "C::m with data set \"case\"", str "C::m"⟩) ∧
    (∀ (pre : List Char) (q : Char) (rest : List Char),
      (q = '#' ∨ q = '"') → rest ≠ [] → rest.all isDotChar = true →
      (∀ i < pre.length,
        dsMatchHere (List.drop i (pre ++ (str " with data set " ++ q :: rest))) = false) →
      stripDataSet (pre ++ (str " with data set " ++ q :: rest)) = pre) :=
  ⟨by decide, by decide, by decide, stripDataSet_append⟩

theorem C7_locationHint_witness :
    stripDataSet (str "Ns\\FileTest::test_foo" ++ (str " with data set " ++ '#' :: str "3")) =
      str "Ns\\FileTest::test_foo" :=
  C7_locationHint.2.2.2 (str "Ns\\FileTest::test_foo") '#' (str "3")
    (Or.inl rfl) (by decide) (by decide) (by decide)

/-!
`Parser.parseFileAndLine` / `Parser.parseDetails`: scan a fault message
line-by-line (split on `\r\n|\n`) for trailing `<path>:<line>` patterns, as
matched by `/(s+)?(?<file>.+):(?<line>\d+)$/`: the file is everything from
the match start (skipping a greedy, backtrackable run of literal `s`
characters at the very start of the match) up to the last colon that is
followed only by digits; the digits are the line number.  A leading run of
`-` characters is then stripped from the file and it is trimmed.  JS `.`
does not cross line terminators and the match must reach the string's end,
so the match lies in the part of the line after its last stray line
terminator (`\r`, U+2028 or U+2029; `\n` cannot survive the split).
-/

def isDigitChar (c : Char) : Bool := c.isDigit

def digitsToNat (ds : List Char) : Nat :=
  ds.foldl (fun a c => 10 * a + (c.toNat - 48)) 0

/-- JS `String.prototype.trim` (whitespace class as in `isWsChar`). -/
def trimL (s : List Char) : List Char :=
  ((s.dropWhile isWsChar).reverse.dropWhile isWsChar).reverse

/-- Split on `/\r\n|\n/g`, as in `parseFileAndLine`. -/
def splitLinesL : List Char → List (List Char)
  | [] => [[]]
  | '\r' :: '\n' :: rest => [] :: splitLinesL rest
  | '\n' :: rest => [] :: splitLinesL rest
  | c :: rest =>
    match splitLinesL rest with
    | [] => [[c]]
    | h :: t => (c :: h) :: t

/-- The part of a line after its last line terminator other than `\n`
(a stray `\r`, U+2028 or U+2029). -/
def afterLastLineTerm (s : List Char) : List Char :=
  (s.reverse.takeWhile (fun c =>
    !(c == '\r' || c == Char.ofNat 8232 || c == Char.ofNat 8233))).reverse

/-- `replace(/^(-)+/, '')`: one anchored replace of the leading dash run. -/
def stripLeadDashes (s : List Char) : List Char :=
  s.dropWhile (fun c => c == '-')

structure TCDetail where
  file : List Char
  line : Nat
deriving DecidableEq

/-- One line's match against the file pattern, with the leftmost-match and
greedy-group behaviour described above. -/
def lineDetail (line : List Char) : Option TCDetail :=
  let seg := afterLastLineTerm line
  let dlen := (seg.reverse.takeWhile isDigitChar).length
  let pre := seg.take (seg.length - dlen)
  if dlen ≠ 0 ∧ pre.getLast? = some ':' ∧ 2 ≤ pre.length then
    let body := pre.dropLast
    let srun := (body.takeWhile (fun c => c == 's')).length
    let k := min srun (body.length - 1)
    some ⟨trimL (stripLeadDashes (body.drop k)), digitsToNat (seg.drop pre.length)⟩
  else none

/-- `Parser.parseFileAndLine`. -/
def parseFileAndLine (text : List Char) : List TCDetail :=
  (splitLinesL (trimL text)).filterMap lineDetail

def natToChars (n : Nat) : List Char := (Nat.repr n).toList

/-- JS non-global `String.prototype.replace` with a literal pattern. -/
def replaceFirstL (p r : List Char) : List Char → List Char
  | [] => []
  | c :: cs =>
    if p.isPrefixOf (c :: cs) && !p.isEmpty then
      r ++ cs.drop (p.length - 1)
    else
      c :: replaceFirstL p r cs

/-- `Parser.parseDetails` on a record whose `details` key is present, with
`message` and `details` the raw decoded strings: entries extracted from the
message body come first, then the entries extracted from the details field;
each matched `file:line` occurrence is deleted from the message, which is
then trimmed. -/
def parseDetails (message details : List Char) : List Char × List TCDetail :=
  let ds := parseFileAndLine message
  let message2 := ds.foldl
    (fun m d => replaceFirstL (d.file ++ ':' :: natToChars d.line) [] m) message
  (trimL message2, ds ++ parseFileAndLine details)

example : parseFileAndLine (str "failed\n/a.php:10") = [⟨str "/a.php", 10⟩] := by
  decide

example :
    parseDetails (str "failed\n/a.php:10") (str "/b.php:2") =
      (str "failed", [⟨str "/a.php", 10⟩, ⟨str "/b.php", 2⟩]) := by
  decide

/-!
`TestResultSummaryParser`: `is` recognizes `^OK\s+\(\d+\stest(s)?` or
`^Test(s)?:END Assertions:END (...)*` with `END = \s(\d+)[\.\s,]\s?` (the
trailing Kleene group can always match the empty string, so only the
`Tests`/`Assertions` prefix decides acceptance), case-insensitively.
`parse` rescans the whole line with
`((?<name>\w+):\s(?<count>\d+)|(?<count2>\d+)\s(?<name2>\w+))[.s,]?` and
reduces the matches into a record, assigning
`result[normalize(name)] = parseInt(count)` per match; the record is
modelled as the association list of assigned properties (the constant
`kind`/`text` fields are omitted).
-/

def isWordChar (c : Char) : Bool := c.isAlpha || c.isDigit || c = '_'

/-- `[.s,]` with the `i` flag. -/
def isOptPunct (c : Char) : Bool := c = '.' || c = ',' || c = 's' || c = 'S'

/-- Try the summary `parse` pattern at the head of `s`.  Returns the name
group, the parsed count and the match length minus one.  The first
alternative (`\w+:\s\d+`) is preferred; no backtracking arises because `:`
is not a word character and a whitespace is not a digit. -/
def summaryMatchAt (s : List Char) : Option (List Char × Nat × Nat) :=
  let alt2 :=
    let d := s.takeWhile isDigitChar
    if d.isEmpty then none
    else
      match s.drop d.length with
      | ws :: rest2 =>
        if isWsChar ws then
          let w2 := rest2.takeWhile isWordChar
          if w2.isEmpty then none
          else
            let extra :=
              match rest2.drop w2.length with
              | e :: _ => if isOptPunct e then 1 else 0
              | [] => 0
            some (w2, digitsToNat d, d.length + 1 + w2.length + extra - 1)
        else none
      | [] => none
  let w := s.takeWhile isWordChar
  if w.isEmpty then alt2
  else
    match s.drop w.length with
    | ':' :: ws :: rest2 =>
      if isWsChar ws then
        let d := rest2.takeWhile isDigitChar
        if d.isEmpty then alt2
        else
          let extra :=
            match rest2.drop d.length with
            | e :: _ => if isOptPunct e then 1 else 0
            | [] => 0
          some (w, digitsToNat d, w.length + 2 + d.length + extra - 1)
      else alt2
    | _ => alt2

/-- `matchAll` scan: leftmost matches, each consumed whole. -/
def sumGo (skip : Nat) : List Char → List (List Char × Nat)
  | [] => []
  | c :: cs =>
    match skip with
    | k + 1 => sumGo k cs
    | 0 =>
      match summaryMatchAt (c :: cs) with
      | some (nm, ct, len1) => (nm, ct) :: sumGo len1 cs
      | none => sumGo 0 cs

def summaryMatches (s : List Char) : List (List Char × Nat) := sumGo 0 s

/-- `TestResultSummaryParser.normalize`. -/
def normalizeName (w : List Char) : List Char :=
  let lw := w.map Char.toLower
  if lw = str "skipped" ∨ lw = str "incomplete" ∨ lw = str "risky" then lw
  else
    match lw.getLast? with
    | some 's' => lw
    | _ => lw ++ ['s']

/-- JS property assignment on the record being built by the reduce. -/
def setProp : List (List Char × Nat) → List Char → Nat → List (List Char × Nat)
  | [], k, v => [(k, v)]
  | (k', v') :: rest, k, v =>
    if k' = k then (k, v) :: rest else (k', v') :: setProp rest k v

def getProp : List (List Char × Nat) → List Char → Option Nat
  | [], _ => none
  | (k', v') :: rest, k => if k' = k then some v' else getProp rest k

/-- `TestResultSummaryParser.parse`, as the association list of count
properties assigned by the reduce. -/
def summaryParse (s : List Char) : List (List Char × Nat) :=
  (summaryMatches s).foldl (fun acc p => setProp acc (normalizeName p.1) p.2) []

/-- Branch `^OK\s+\(\d+\stest(s)?` of the `is` pattern (case-insensitive). -/
def summaryIsB1 (s : List Char) : Bool :=
  if ((s.take 2).map Char.toLower) = str "ok" then
    let t1 := s.drop 2
    let wlen := (t1.takeWhile isWsChar).length
    if wlen = 0 then false
    else
      match t1.drop wlen with
      | '(' :: t2 =>
        let d := t2.takeWhile isDigitChar
        if d.isEmpty then false
        else
          match t2.drop d.length with
          | ws :: t3 => isWsChar ws && ((t3.take 4).map Char.toLower) == str "test"
          | [] => false
      | _ => false
  else false

/-- `END = \s(\d+)[\.\s,]\s?`: returns the rest of the string on success. -/
def summaryEndChunk : List Char → Option (List Char)
  | [] => none
  | ws :: t =>
    if isWsChar ws then
      let d := t.takeWhile isDigitChar
      if d.isEmpty then none
      else
        match t.drop d.length with
        | p :: t2 =>
          if p = '.' ∨ isWsChar p = true ∨ p = ',' then
            match t2 with
            | w2 :: t3 => if isWsChar w2 then some t3 else some (w2 :: t3)
            | [] => some []
          else none
        | [] => none
    else none

/-- Branch `^Test(s)?:END Assertions:END(...)*` of the `is` pattern; the
trailing starred group always matches empty. -/
def summaryIsB2 (s : List Char) : Bool :=
  if ((s.take 4).map Char.toLower) = str "test" then
    let t0 := s.drop 4
    let t1 :=
      match t0 with
      | c :: rest => if c.toLower = 's' then rest else t0
      | [] => t0
    match t1 with
    | ':' :: t2 =>
      match summaryEndChunk t2 with
      | some t3 =>
        if ((t3.take 10).map Char.toLower) = str "assertions" then
          match t3.drop 10 with
          | ':' :: t4 => (summaryEndChunk t4).isSome
          | _ => false
        else false
      | none => false
    | _ => false
  else false

/-- `TestResultSummaryParser.is`. -/
def summaryIs (s : List Char) : Bool := summaryIsB1 s || summaryIsB2 s

example : summaryIs (str "OK (5 tests, 10 assertions)") = true := by decide
example : summaryIs (str "Tests: 5, Assertions: 10, Failures: 2, Skipped: 1.") = true := by
  decide
example :
    summaryParse (str "OK (5 tests, 10 assertions)") =
      [(str "tests", 5), (str "assertions", 10)] := by decide
example :
    summaryParse (str "Tests: 5, Assertions: 10, Failures: 2, Skipped: 1.") =
      [(str "tests", 5), (str "assertions", 10), (str "failures", 2),
       (str "skipped", 1)] := by decide

theorem getProp_setProp (acc : List (List Char × Nat)) (k' : List Char) (v : Nat)
    (k : List Char) :
    getProp (setProp acc k' v) k = if k' = k then some v else getProp acc k := by
  induction acc with
  | nil => by_cases h : k' = k <;> simp [setProp, getProp, h]
  | cons hd tl ih =>
    obtain ⟨k'', v''⟩ := hd
    by_cases h1 : k'' = k'
    · subst h1
      by_cases h2 : k'' = k <;> simp [setProp, getProp, h2]
    · by_cases h2 : k'' = k
      · subst h2
        have : k' ≠ k'' := fun hc => h1 hc.symm
        simp [setProp, getProp, h1, this]
      · simp [setProp, getProp, h1, h2, ih]

theorem getProp_foldl_mem (l : List (List Char × Nat)) :
    ∀ (acc : List (List Char × Nat)) (k : List Char),
      (getProp (l.foldl (fun acc p => setProp acc (normalizeName p.1) p.2) acc) k).isSome
          = true →
      (getProp acc k).isSome = true ∨ ∃ p ∈ l, normalizeName p.1 = k := by
  induction l with
  | nil => intro acc k h; exact Or.inl h
  | cons p ps ih =>
    intro acc k h
    rcases ih _ k h with h' | ⟨q, hq, hnq⟩
    · rw [getProp_setProp] at h'
      by_cases hk : normalizeName p.1 = k
      · exact Or.inr ⟨p, by simp, hk⟩
      · rw [if_neg hk] at h'
        exact Or.inl h'
    · exact Or.inr ⟨q, by simp [hq], hnq⟩

/-- C8: `"OK (5 tests, 10 assertions)"` is accepted and parses to a record
with exactly the properties `tests = 5` and `assertions = 10` (no
errors/failures/skipped/incomplete/risky key at all);
`"Tests: 5, Assertions: 10, Failures: 2, Skipped: 1."` is accepted and
parses to exactly `tests = 5, assertions = 10, failures = 2, skipped = 1`;
and in general every count property present in the output record arises
from a `name: count` / `count name` match in the input line. -/
theorem C8_summary :
    (summaryIs (str "OK (5 tests, 10 assertions)") = true ∧
     summaryParse (str "OK (5 tests, 10 assertions)") =
       [(str "tests", 5), (str "assertions", 10)] ∧
     getProp (summaryParse (str "OK (5 tests, 10 assertions)")) (str "errors") = none ∧
     getProp (summaryParse (str "OK (5 tests, 10 assertions)")) (str "failures") = none ∧
     getProp (summaryParse (str "OK (5 tests, 10 assertions)")) (str "skipped") = none ∧
     getProp (summaryParse (str "OK (5 tests, 10 assertions)")) (str "incomplete") = none ∧
     getProp (summaryParse (str "OK (5 tests, 10 assertions)")) (str "risky") = none) ∧
    (summaryIs (str "Tests: 5, Assertions: 10, Failures: 2, Skipped: 1.") = true ∧
     summaryParse (str "Tests: 5, Assertions: 10, Failures: 2, Skipped: 1.") =
       [(str "tests", 5), (str "assertions", 10), (str "failures", 2),
        (str "skipped", 1)] ∧
     getProp (summaryParse (str "Tests: 5, Assertions: 10, Failures: 2, Skipped: 1."))
       (str "errors") = none ∧
     getProp (summaryParse (str "Tests: 5, Assertions: 10, Failures: 2, Skipped: 1."))
       (str "incomplete") = none ∧
     getProp (summaryParse (str "Tests: 5, Assertions: 10, Failures: 2, Skipped: 1."))
       (str "risky") = none) ∧
    (∀ (s k : List Char), (getProp (summaryParse s) k).isSome = true →
      ∃ p ∈ summaryMatches s, normalizeName p.1 = k) := by
  refine ⟨⟨by decide, by decide, by decide, by decide, by decide, by decide, by decide⟩,
    ⟨by decide, by decide, by decide, by decide, by decide⟩, ?_⟩
  intro s k h
  rcases getProp_foldl_mem (summaryMatches s) [] k h with h' | h2
  · simp [getProp] at h'
  · exact h2

theorem C8_summary_witness :
    ∃ p ∈ summaryMatches (str "Tests: 5."), normalizeName p.1 = str "tests" :=
  C8_summary.2.2 (str "Tests: 5.") (str "tests") (by decide)

/-!
`ProblemMatcher`: records are modelled with one `Option` field per property
the matcher reads — `none` is an absent JS property, so object spread
(`jsMerge`) takes the right-hand field when present.  JS faults on absent
values (`undefined.event`, `undefined.push`, spreading `undefined` into a
call) are modelled in `Except`; string coercion of `undefined` (as in
`prevData.message += ...`) is modelled by `jsStr`.  `matcherParse` dispatches
`this.lookup[event]?.call` over the dispatch object's six own properties (the
lifecycle event names) — the behaviour the correlator claims exercise;
`matcherParseFull` further down extends it with the JS prototype chain of
that property lookup, under which a non-lifecycle event name finds the
`Object.prototype` member of the same name (`constructor` forwards the
record, `toString` returns a string, `__proto__` makes `?.call` throw).
`collect` (a JS `Map`) is an association list whose keys stay pairwise
distinct: `set` overwrites in place or appends, `delete` removes the key's
entry.
-/

structure TCRecord where
  event : Option (List Char)
  name : Option (List Char)
  flowId : Option Int
  kind : Option (List Char)
  message : Option (List Char)
  duration : Option Int
  details : Option (List TCDetail)
deriving DecidableEq

def emptyRec : TCRecord := ⟨none, none, none, none, none, none, none⟩

def oMerge {α : Type} (a b : Option α) : Option α :=
  match b with
  | some v => some v
  | none => a

/-- JS object spread `{...a, ...b}` on the modelled fields. -/
def jsMerge (a b : TCRecord) : TCRecord :=
  ⟨oMerge a.event b.event, oMerge a.name b.name, oMerge a.flowId b.flowId,
   oMerge a.kind b.kind, oMerge a.message b.message, oMerge a.duration b.duration,
   oMerge a.details b.details⟩

/-- JS string coercion of a possibly-absent string value. -/
def jsStr : Option (List Char) → List Char
  | none => str "undefined"
  | some s => s

def jsShowInt : Option Int → List Char
  | none => str "undefined"
  | some i => (toString i).toList

/-- Truthiness of a possibly-absent string (`if (testResult.message)`). -/
def jsTruthy : Option (List Char) → Bool
  | none => false
  | some s => !s.isEmpty

/-- `ProblemMatcher.generateId`. -/
def generateId (r : TCRecord) : List Char :=
  jsStr r.name ++ '-' :: jsShowInt r.flowId

/-- `ProblemMatcher.isFault`. -/
def isFault (r : TCRecord) : Bool :=
  r.event == some (str "testFailed") || r.event == some (str "testIgnored")

/-- `ProblemMatcher.isTestResult`: the record carries `event`, `name` and
`flowId`. -/
def isTestResult (r : TCRecord) : Bool :=
  r.event.isSome && r.name.isSome && r.flowId.isSome

abbrev Store := List (List Char × TCRecord)

def storeGet : Store → List Char → Option TCRecord
  | [], _ => none
  | (k', v) :: rest, k => if k' = k then some v else storeGet rest k

def storeSet : Store → List Char → TCRecord → Store
  | [], k, v => [(k, v)]
  | (k', v') :: rest, k, v =>
    if k' = k then (k, v) :: rest else (k', v') :: storeSet rest k v

def storeErase (st : Store) (k : List Char) : Store :=
  st.filter (fun p => !(p.1 == k))

/-- `ProblemMatcher.handleStarted`. -/
def handleStarted (st : Store) (r : TCRecord) : Store × Option TCRecord :=
  let id := generateId r
  let st' := storeSet st id r
  (st', storeGet st' id)

/-- `ProblemMatcher.handleFault`.  The error case is the JS `TypeError`
raised by `prevData.details.push(...testResult.details)` when either details
value is absent. -/
def handleFault (st : Store) (r : TCRecord) : Except Unit (Store × Option TCRecord) :=
  let id := generateId r
  match storeGet st id with
  | none => .ok (storeSet st id (jsMerge emptyRec r), none)
  | some prev =>
    if prev.kind = some (str "testStarted") then
      .ok (storeSet st id (jsMerge prev r), none)
    else
      match prev.details, r.details with
      | some d1, some d2 =>
        let msg := if jsTruthy r.message
          then some (jsStr prev.message ++ str "\n\n" ++ jsStr r.message)
          else prev.message
        .ok (storeSet st id { prev with message := msg, details := some (d1 ++ d2) }, none)
      | _, _ => .error ()

/-- `ProblemMatcher.handleFinished`.  The error case is the JS `TypeError`
raised by `isFault(prevData)` reading `.event` of `undefined` when no record
is stored for the key. -/
def handleFinished (st : Store) (r : TCRecord) : Except Unit (Store × Option TCRecord) :=
  let id := generateId r
  match storeGet st id with
  | none => .error ()
  | some prev =>
    let ev := if isFault prev then prev.event else r.event
    .ok (storeErase st id, some { jsMerge prev r with event := ev, kind := ev })

/-- `ProblemMatcher.parse` after the text has been decoded to a record (or
to nothing): dispatch through the `lookup` table's own properties when the
record qualifies as a test result, otherwise pass it through unchanged.
`matcherParseFull` below adds the prototype chain of the property lookup;
the two agree on the six lifecycle event names. -/
def matcherParse (st : Store) (res : Option TCRecord) :
    Except Unit (Store × Option TCRecord) :=
  match res with
  | none => .ok (st, none)
  | some r =>
    if isTestResult r then
      if r.event = some (str "testSuiteStarted") ∨ r.event = some (str "testStarted") then
        .ok (handleStarted st r)
      else if r.event = some (str "testSuiteFinished") ∨
          r.event = some (str "testFinished") then
        handleFinished st r
      else if r.event = some (str "testFailed") ∨ r.event = some (str "testIgnored") then
        handleFault st r
      else
        .ok (st, none)
    else
      .ok (st, some r)

def runSeq : Store → List TCRecord → Except Unit (Store × List TCRecord)
  | st, [] => .ok (st, [])
  | st, r :: rs =>
    match matcherParse st (some r) with
    | .error e => .error e
    | .ok (st', out) =>
      match runSeq st' rs with
      | .error e => .error e
      | .ok (st'', outs) => .ok (st'', out.toList ++ outs)

@[simp]
theorem jsMerge_empty (r : TCRecord) : jsMerge emptyRec r = r := by
  cases r with
  | mk e n f k m d dt =>
    cases e <;> cases n <;> cases f <;> cases k <;> cases m <;> cases d <;> cases dt <;>
      rfl

theorem storeGet_set_self (st : Store) (k : List Char) (v : TCRecord) :
    storeGet (storeSet st k v) k = some v := by
  induction st with
  | nil => simp [storeSet, storeGet]
  | cons hd tl ih =>
    obtain ⟨k', v'⟩ := hd
    by_cases h : k' = k <;> simp [storeSet, storeGet, h, ih]

theorem storeGet_set_ne (st : Store) (k : List Char) (v : TCRecord) (k' : List Char)
    (h : k' ≠ k) : storeGet (storeSet st k v) k' = storeGet st k' := by
  induction st with
  | nil => simp [storeSet, storeGet, Ne.symm h]
  | cons hd tl ih =>
    obtain ⟨k'', v''⟩ := hd
    by_cases h1 : k'' = k
    · subst h1
      have h2 : ¬ k'' = k' := fun hc => h (hc.symm)
      simp [storeSet, storeGet, h2]
    · by_cases h2 : k'' = k' <;> simp [storeSet, storeGet, h1, h2, h, ih]

theorem storeGet_erase_self (st : Store) (k : List Char) :
    storeGet (storeErase st k) k = none := by
  induction st with
  | nil => simp [storeErase, storeGet]
  | cons hd tl ih =>
    obtain ⟨k', v'⟩ := hd
    by_cases h : k' = k <;>
      simp [storeErase, storeGet, h, ih] <;>
      simpa [storeErase] using ih

theorem storeGet_erase_ne (st : Store) (k : List Char) (k' : List Char) (h : k' ≠ k) :
    storeGet (storeErase st k) k' = storeGet st k' := by
  induction st with
  | nil => simp [storeErase, storeGet]
  | cons hd tl ih =>
    obtain ⟨k'', v''⟩ := hd
    by_cases h1 : k'' = k
    · subst h1
      have h2 : ¬ k'' = k' := fun hc => h hc.symm
      simp [storeErase, storeGet, h2]
      simpa [storeErase] using ih
    · by_cases h2 : k'' = k'
      · simp [storeErase, storeGet, h1, h2, h]
      · simp [storeErase, storeGet, h1, h2, h]
        simpa [storeErase] using ih

/-- The per-key effect of one dispatch step on the store. -/
inductive EntryOp where
  | set (v : TCRecord)
  | erase
  | keep

def applyOp (st : Store) (k : List Char) : EntryOp → Store
  | .set v => storeSet st k v
  | .erase => storeErase st k
  | .keep => st

/-- One dispatch step of `ProblemMatcher.parse` on a record, expressed as a
function of the stored entry for the record's key alone. -/
def stepEntry (entry : Option TCRecord) (r : TCRecord) :
    Except Unit (EntryOp × Option TCRecord) :=
  if isTestResult r then
    if r.event = some (str "testSuiteStarted") ∨ r.event = some (str "testStarted") then
      .ok (.set r, some r)
    else if r.event = some (str "testSuiteFinished") ∨
        r.event = some (str "testFinished") then
      match entry with
      | none => .error ()
      | some prev =>
        let ev := if isFault prev then prev.event else r.event
        .ok (.erase, some { jsMerge prev r with event := ev, kind := ev })
    else if r.event = some (str "testFailed") ∨ r.event = some (str "testIgnored") then
      match entry with
      | none => .ok (.set (jsMerge emptyRec r), none)
      | some prev =>
        if prev.kind = some (str "testStarted") then
          .ok (.set (jsMerge prev r), none)
        else
          match prev.details, r.details with
          | some d1, some d2 =>
            let msg := if jsTruthy r.message
              then some (jsStr prev.message ++ str "\n\n" ++ jsStr r.message)
              else prev.message
            .ok (.set { prev with message := msg, details := some (d1 ++ d2) }, none)
          | _, _ => .error ()
    else .ok (.keep, none)
  else .ok (.keep, some r)

theorem matcherParse_eq_stepEntry (st : Store) (r : TCRecord) :
    matcherParse st (some r) =
      (stepEntry (storeGet st (generateId r)) r).map
        (fun p => (applyOp st (generateId r) p.1, p.2)) := by
  by_cases hT : isTestResult r
  · by_cases hS : r.event = some (str "testSuiteStarted") ∨ r.event = some (str "testStarted")
    · simp [matcherParse, stepEntry, handleStarted, hT, hS, applyOp, Except.map,
        storeGet_set_self]
    · by_cases hF : r.event = some (str "testSuiteFinished") ∨
          r.event = some (str "testFinished")
      · cases hget : storeGet st (generateId r) with
        | none =>
          simp [matcherParse, stepEntry, handleFinished, hT, hS, hF, hget, Except.map]
        | some prev =>
          simp [matcherParse, stepEntry, handleFinished, hT, hS, hF, hget, applyOp,
            Except.map]
      · by_cases hFa : r.event = some (str "testFailed") ∨ r.event = some (str "testIgnored")
        · cases hget : storeGet st (generateId r) with
          | none =>
            simp [matcherParse, stepEntry, handleFault, hT, hS, hF, hFa, hget, applyOp,
              Except.map]
          | some prev =>
            by_cases hk : prev.kind = some (str "testStarted")
            · simp [matcherParse, stepEntry, handleFault, hT, hS, hF, hFa, hget, hk,
                applyOp, Except.map]
            · cases hd1 : prev.details <;> cases hd2 : r.details <;>
                simp [matcherParse, stepEntry, handleFault, hT, hS, hF, hFa, hget, hk,
                  hd1, hd2, applyOp, Except.map]
        · simp [matcherParse, stepEntry, hT, hS, hF, hFa, applyOp, Except.map]
  · simp [matcherParse, stepEntry, hT, applyOp, Except.map]

/-- The JS value `ProblemMatcher.parse` can return in the model: a result
record, `undefined`, a string, a boolean, or the matcher instance itself. -/
inductive JsVal where
  | record (r : TCRecord)
  | undef
  | jsString (s : List Char)
  | jsBool (b : Bool)
  | matcherObj
deriving DecidableEq

def jsOfOpt : Option TCRecord → JsVal
  | none => JsVal.undef
  | some r => JsVal.record r

/-- Value of `this.lookup[e]?.call(this, result)` when `e` is not an own
property of the dispatch object literal and the call does not throw: the
property lookup falls through to the member of the same name inherited from
`Object.prototype`.  `constructor` is `Object`, and `Object(result)` returns
the record itself; `toString`/`toLocaleString` yield `"[object Object]"`;
`valueOf` returns the matcher instance; `hasOwnProperty` (of the key the
record coerces to), `isPrototypeOf` and `propertyIsEnumerable` yield
`false`; `__lookupGetter__`/`__lookupSetter__` find no accessor and yield
`undefined`; a name not on `Object.prototype` reads `undefined` and `?.`
short-circuits to `undefined`. -/
def protoResult (r : TCRecord) (e : List Char) : JsVal :=
  if e = str "constructor" then JsVal.record r
  else if e = str "toString" ∨ e = str "toLocaleString" then
    JsVal.jsString (str "[object Object]")
  else if e = str "valueOf" then JsVal.matcherObj
  else if e = str "hasOwnProperty" ∨ e = str "isPrototypeOf" ∨
      e = str "propertyIsEnumerable" then JsVal.jsBool false
  else JsVal.undef

/-- `this.lookup[event]?.call(this, result)` with the JS prototype chain of
the object literal `lookup` included: the six own properties run the
handlers; `__proto__` reads the accessor on `Object.prototype`, so the
lookup yields a plain object whose `.call` is `undefined`, and
`__defineGetter__`/`__defineSetter__` demand a callable second argument
(`result` is not), so these three throw a `TypeError`; every other
inherited member is callable and returns a value (`protoResult`) without
touching the store. -/
def dispatchEvent (st : Store) (r : TCRecord) (e : List Char) :
    Except Unit (Store × JsVal) :=
  if e = str "testSuiteStarted" ∨ e = str "testStarted" then
    .ok ((handleStarted st r).1, jsOfOpt (handleStarted st r).2)
  else if e = str "testSuiteFinished" ∨ e = str "testFinished" then
    (handleFinished st r).map (fun p => (p.1, jsOfOpt p.2))
  else if e = str "testFailed" ∨ e = str "testIgnored" then
    (handleFault st r).map (fun p => (p.1, jsOfOpt p.2))
  else if e = str "__proto__" ∨ e = str "__defineGetter__" ∨
      e = str "__defineSetter__" then
    .error ()
  else
    .ok (st, protoResult r e)

/-- `ProblemMatcher.parse` at the record level with the full JS property
lookup.  (`isTestResult` guarantees `event` is present, so the `none` arm
under it is unreachable.)  `matcherParse` above is its restriction to
own-property dispatch; the two agree on the six lifecycle event names and
on non-test-result records (`matcherParseFull_agrees`). -/
def matcherParseFull (st : Store) (res : Option TCRecord) :
    Except Unit (Store × JsVal) :=
  match res with
  | none => .ok (st, JsVal.undef)
  | some r =>
    if isTestResult r then
      match r.event with
      | some e => dispatchEvent st r e
      | none => .ok (st, JsVal.undef)
    else
      .ok (st, JsVal.record r)

theorem matcherParseFull_agrees (st : Store) (r : TCRecord) (e : List Char)
    (hev : r.event = some e)
    (hsix : e ∈ [str "testSuiteStarted", str "testSuiteFinished", str "testStarted",
      str "testFinished", str "testFailed", str "testIgnored"]) :
    matcherParseFull st (some r) =
      (matcherParse st (some r)).map (fun p => (p.1, jsOfOpt p.2)) := by
  by_cases hT : isTestResult r
  · simp only [List.mem_cons, List.not_mem_nil, or_false] at hsix
    rcases hsix with he | he | he | he | he | he <;> subst he
    · simp [matcherParseFull, matcherParse, dispatchEvent, hT, hev, Except.map]
    · simp [matcherParseFull, matcherParse, dispatchEvent, hT, hev, Except.map,
        (by decide : ¬(str "testSuiteFinished" = str "testSuiteStarted")),
        (by decide : ¬(str "testSuiteFinished" = str "testStarted"))]
    · simp [matcherParseFull, matcherParse, dispatchEvent, hT, hev, Except.map]
    · simp [matcherParseFull, matcherParse, dispatchEvent, hT, hev, Except.map,
        (by decide : ¬(str "testFinished" = str "testSuiteStarted")),
        (by decide : ¬(str "testFinished" = str "testStarted"))]
    · simp [matcherParseFull, matcherParse, dispatchEvent, hT, hev, Except.map,
        (by decide : ¬(str "testFailed" = str "testSuiteStarted")),
        (by decide : ¬(str "testFailed" = str "testStarted")),
        (by decide : ¬(str "testFailed" = str "testSuiteFinished")),
        (by decide : ¬(str "testFailed" = str "testFinished"))]
    · simp [matcherParseFull, matcherParse, dispatchEvent, hT, hev, Except.map,
        (by decide : ¬(str "testIgnored" = str "testSuiteStarted")),
        (by decide : ¬(str "testIgnored" = str "testStarted")),
        (by decide : ¬(str "testIgnored" = str "testSuiteFinished")),
        (by decide : ¬(str "testIgnored" = str "testFinished"))]
  · simp [matcherParseFull, matcherParse, hT, Except.map, jsOfOpt]

/-- C10, counterexample: the claim fails on the program because the
property lookup on the dispatch object literal consults `Object.prototype`.
A record with event `toString` (name and flowId present) makes parse return
the string `"[object Object]"` — not `undefined`; with event `constructor`
parse returns (forwards) the record itself; with event `__proto__` the call
`?.call` throws a `TypeError`. -/
theorem C10_unknownEvent_cx :
    matcherParseFull []
        (some ⟨some (str "toString"), some (str "t"), some 1,
          some (str "toString"), none, none, none⟩) =
      .ok ([], JsVal.jsString (str "[object Object]")) ∧
    JsVal.jsString (str "[object Object]") ≠ JsVal.undef ∧
    matcherParseFull []
        (some ⟨some (str "constructor"), some (str "t"), some 1,
          some (str "constructor"), none, none, none⟩) =
      .ok ([], JsVal.record ⟨some (str "constructor"), some (str "t"), some 1,
          some (str "constructor"), none, none, none⟩) ∧
    matcherParseFull []
        (some ⟨some (str "__proto__"), some (str "t"), some 1,
          some (str "__proto__"), none, none, none⟩) = .error () :=
  ⟨rfl, by decide, rfl, rfl⟩

/-- C10 (amended): for a record carrying `event`, `name` and `flowId` whose
event is none of the six lifecycle event names, the store is never touched
— whenever parse returns at all it returns the store it was given — and if
the event is moreover none of the twelve `Object.prototype` member names,
the prototype lookup finds nothing, `?.call` evaluates to `undefined`, and
parse returns `undefined`.  (For the inherited member names parse instead
returns the record, a string, a boolean or the matcher itself, or throws —
`C10_unknownEvent_cx`.) -/
theorem C10_unknownEvent (st : Store) (r : TCRecord) (e : List Char)
    (he : r.event = some e) (hn : r.name.isSome = true) (hf : r.flowId.isSome = true)
    (hsix : e ∉ [str "testSuiteStarted", str "testSuiteFinished", str "testStarted",
      str "testFinished", str "testFailed", str "testIgnored"]) :
    (∀ (st' : Store) (v : JsVal), matcherParseFull st (some r) = .ok (st', v) →
      st' = st) ∧
    (e ∉ [str "constructor", str "__defineGetter__", str "__defineSetter__",
        str "hasOwnProperty", str "__lookupGetter__", str "__lookupSetter__",
        str "isPrototypeOf", str "propertyIsEnumerable", str "toString",
        str "valueOf", str "__proto__", str "toLocaleString"] →
      matcherParseFull st (some r) = .ok (st, JsVal.undef)) := by
  have hT : isTestResult r = true := by simp [isTestResult, he, hn, hf]
  simp only [List.mem_cons, List.not_mem_nil, or_false, not_or] at hsix
  obtain ⟨n1, n2, n3, n4, n5, n6⟩ := hsix
  have hc1 : ¬(e = str "testSuiteStarted" ∨ e = str "testStarted") := by
    rintro (h | h)
    · exact n1 h
    · exact n3 h
  have hc2 : ¬(e = str "testSuiteFinished" ∨ e = str "testFinished") := by
    rintro (h | h)
    · exact n2 h
    · exact n4 h
  have hc3 : ¬(e = str "testFailed" ∨ e = str "testIgnored") := by
    rintro (h | h)
    · exact n5 h
    · exact n6 h
  constructor
  · intro st' v hok
    simp [matcherParseFull, hT, he] at hok
    by_cases hP : e = str "__proto__" ∨ e = str "__defineGetter__" ∨
        e = str "__defineSetter__"
    · simp [dispatchEvent, hc1, hc2, hc3, hP] at hok
    · simp [dispatchEvent, hc1, hc2, hc3, hP] at hok
      exact hok.1.symm
  · intro hproto
    simp only [List.mem_cons, List.not_mem_nil, or_false, not_or] at hproto
    obtain ⟨p1, p2, p3, p4, p5, p6, p7, p8, p9, p10, p11, p12⟩ := hproto
    have hP : ¬(e = str "__proto__" ∨ e = str "__defineGetter__" ∨
        e = str "__defineSetter__") := by
      rintro (h | h | h)
      · exact p11 h
      · exact p2 h
      · exact p3 h
    simp [matcherParseFull, hT, he, dispatchEvent, hc1, hc2, hc3, hP, protoResult,
      p1, p4, p7, p8, p9, p10, p12]

def bogusRec : TCRecord :=
  ⟨some (str "bogusEvent"), some (str "t"), some 1, some (str "bogusEvent"),
   none, none, none⟩

theorem C10_unknownEvent_witness :
    matcherParseFull [] (some bogusRec) = .ok ([], JsVal.undef) :=
  (C10_unknownEvent [] bogusRec (str "bogusEvent") rfl rfl rfl (by decide)).2
    (by decide)

/-- C9: when the store already holds a non-`testStarted` record for the key
and a further fault record arrives whose message is absent or empty, the
stored message is kept verbatim (no blank-line separator is appended) while
the incoming details entries are still appended after the stored ones. -/
theorem C9_blankFaultMessage (st : Store) (r prev : TCRecord)
    (d1 d2 : List TCDetail)
    (hev : r.event = some (str "testFailed") ∨ r.event = some (str "testIgnored"))
    (hn : r.name.isSome = true) (hf : r.flowId.isSome = true)
    (hprev : storeGet st (generateId r) = some prev)
    (hkind : prev.kind ≠ some (str "testStarted"))
    (hmsg : r.message = none ∨ r.message = some [])
    (hd1 : prev.details = some d1) (hd2 : r.details = some d2) :
    matcherParse st (some r) =
      .ok (storeSet st (generateId r) { prev with details := some (d1 ++ d2) }, none) := by
  have hT : isTestResult r = true := by
    rcases hev with h | h <;> simp [isTestResult, h, hn, hf]
  have hS : ¬(r.event = some (str "testSuiteStarted") ∨
      r.event = some (str "testStarted")) := by
    rcases hev with h | h <;> rw [h] <;> intro hc <;>
      rcases hc with hc | hc <;> exact absurd hc (by decide)
  have hF : ¬(r.event = some (str "testSuiteFinished") ∨
      r.event = some (str "testFinished")) := by
    rcases hev with h | h <;> rw [h] <;> intro hc <;>
      rcases hc with hc | hc <;> exact absurd hc (by decide)
  have htr : jsTruthy r.message = false := by
    rcases hmsg with h | h <;> simp [jsTruthy, h]
  simp [matcherParse, hT, hS, hF, hev, handleFault, hprev, hkind, hd1, hd2, htr]

def c9PrevRec : TCRecord :=
  ⟨some (str "testFailed"), some (str "t"), some 1, some (str "testFailed"),
   some (str "A"), none, some [⟨str "/a.php", 1⟩]⟩

def c9InRec : TCRecord :=
  ⟨some (str "testFailed"), some (str "t"), some 1, some (str "testFailed"),
   none, none, some [⟨str "/b.php", 2⟩]⟩

theorem C9_blankFaultMessage_witness :
    matcherParse [(str "t-1", c9PrevRec)] (some c9InRec) =
      .ok (storeSet [(str "t-1", c9PrevRec)] (generateId c9InRec)
        { c9PrevRec with details := some [⟨str "/a.php", 1⟩, ⟨str "/b.php", 2⟩] }, none) :=
  C9_blankFaultMessage [(str "t-1", c9PrevRec)] c9InRec c9PrevRec
    [⟨str "/a.php", 1⟩] [⟨str "/b.php", 2⟩]
    (Or.inl rfl) rfl rfl (by decide) (by decide) (Or.inl rfl) rfl rfl

def exceptOk {α : Type} : Except Unit α → Bool
  | .ok _ => true
  | .error _ => false

/-- The event names on which `dispatchEvent` completes without a JS
`TypeError`: a Finished/SuiteFinished needs a stored record for its key, a
repeated fault merge needs the stored and incoming `details` present, and
the three `Object.prototype` accessors/definers whose `?.call` is not a
callable function (`__proto__`, `__defineGetter__`, `__defineSetter__`)
always throw. -/
def safeEvent (st : Store) (r : TCRecord) (e : List Char) : Bool :=
  if e = str "testSuiteStarted" ∨ e = str "testStarted" then
    true
  else if e = str "testSuiteFinished" ∨ e = str "testFinished" then
    (storeGet st (generateId r)).isSome
  else if e = str "testFailed" ∨ e = str "testIgnored" then
    match storeGet st (generateId r) with
    | none => true
    | some prev =>
      if prev.kind = some (str "testStarted") then true
      else prev.details.isSome && r.details.isSome
  else if e = str "__proto__" ∨ e = str "__defineGetter__" ∨
      e = str "__defineSetter__" then
    false
  else true

/-- The record-level inputs on which `ProblemMatcher.parse` completes
without a JS `TypeError`. -/
def safeInput (st : Store) (res : Option TCRecord) : Bool :=
  match res with
  | none => true
  | some r =>
    if isTestResult r then
      match r.event with
      | some e => safeEvent st r e
      | none => true
    else true

theorem exceptOk_dispatchEvent (st : Store) (r : TCRecord) (e : List Char) :
    exceptOk (dispatchEvent st r e) = safeEvent st r e := by
  by_cases hS : e = str "testSuiteStarted" ∨ e = str "testStarted"
  · simp [dispatchEvent, safeEvent, hS, exceptOk]
  · by_cases hF : e = str "testSuiteFinished" ∨ e = str "testFinished"
    · cases hget : storeGet st (generateId r) with
      | none => simp [dispatchEvent, safeEvent, hS, hF, handleFinished, hget,
          exceptOk, Except.map]
      | some prev => simp [dispatchEvent, safeEvent, hS, hF, handleFinished, hget,
          exceptOk, Except.map]
    · by_cases hFa : e = str "testFailed" ∨ e = str "testIgnored"
      · cases hget : storeGet st (generateId r) with
        | none => simp [dispatchEvent, safeEvent, hS, hF, hFa, handleFault, hget,
            exceptOk, Except.map]
        | some prev =>
          by_cases hk : prev.kind = some (str "testStarted")
          · simp [dispatchEvent, safeEvent, hS, hF, hFa, handleFault, hget, hk,
              exceptOk, Except.map]
          · cases hd1 : prev.details <;> cases hd2 : r.details <;>
              simp [dispatchEvent, safeEvent, hS, hF, hFa, handleFault, hget, hk,
                hd1, hd2, exceptOk, Except.map]
      · by_cases hP : e = str "__proto__" ∨ e = str "__defineGetter__" ∨
            e = str "__defineSetter__"
        · simp [dispatchEvent, safeEvent, hS, hF, hFa, hP, exceptOk]
        · simp [dispatchEvent, safeEvent, hS, hF, hFa, hP, exceptOk]

/-- C3, counterexample: a `testFinished` record whose key has no stored
record makes `ProblemMatcher.parse` raise a `TypeError` (`isFault(prevData)`
reads `.event` of `undefined`), and so does a record whose event is
`__proto__` (the prototype lookup yields a non-function and `?.call` is
`undefined`); neither parse returns a record or `undefined`. -/
theorem C3_noThrow_cx :
    matcherParseFull []
        (some ⟨some (str "testFinished"), some (str "t"), some 1,
          some (str "testFinished"), none, some 12, none⟩) = .error () ∧
    matcherParseFull []
        (some ⟨some (str "__proto__"), some (str "u"), some 2,
          some (str "__proto__"), none, none, none⟩) = .error () :=
  ⟨rfl, rfl⟩

/-- C3 (amended): the record-level dispatch returns a value without
throwing exactly on `safeInput` inputs: a Finished/SuiteFinished with no
stored record for its key, a repeated Failed/Ignored whose stored or
incoming `details` is absent, and any record whose event is `__proto__`,
`__defineGetter__` or `__defineSetter__` (inherited `Object.prototype`
members whose lookup does not produce a callable `call`) raise a
`TypeError`; every other record-level input returns normally. -/
theorem C3_noThrow :
    ∀ (st : Store) (res : Option TCRecord),
      exceptOk (matcherParseFull st res) = safeInput st res := by
  intro st res
  cases res with
  | none => rfl
  | some r =>
    by_cases hT : isTestResult r
    · cases hev : r.event with
      | none => simp [matcherParseFull, safeInput, hT, hev, exceptOk]
      | some e =>
        simp [matcherParseFull, safeInput, hT, hev, exceptOk_dispatchEvent st r e]
    · simp [matcherParseFull, safeInput, hT, exceptOk]

def startedRec : TCRecord :=
  ⟨some (str "testStarted"), some (str "t"), some 1, some (str "testStarted"),
   none, none, none⟩

def boomFaultRec : TCRecord :=
  ⟨some (str "testFailed"), some (str "t"), some 1, some (str "testFailed"),
   some (str "boom"), none, some []⟩

def doneRec : TCRecord :=
  ⟨some (str "testFinished"), some (str "t"), some 1, some (str "testFinished"),
   none, some 12, none⟩

def boomTerminalRec : TCRecord :=
  ⟨some (str "testFailed"), some (str "t"), some 1, some (str "testFailed"),
   some (str "boom"), some 12, some []⟩

/-- C2: for key (name `t`, flowId 1), Started → Failed("boom") →
Finished(duration 12) emits exactly the started echo and then, at the
Finished line, one terminal record with event and kind `testFailed`,
message containing "boom" and duration 12; in general a Finished arriving
while a fault record is stored for the key yields the stored fault event,
not the incoming Finished event. -/
theorem C2_correlationMerge :
    (runSeq [] [startedRec, boomFaultRec, doneRec] =
        .ok ([], [startedRec, boomTerminalRec]) ∧
      boomTerminalRec.event = some (str "testFailed") ∧
      boomTerminalRec.kind = some (str "testFailed") ∧
      (∃ m, boomTerminalRec.message = some m ∧ (str "boom") <:+: m) ∧
      boomTerminalRec.duration = some 12) ∧
    (∀ (st : Store) (r prev : TCRecord),
      storeGet st (generateId r) = some prev → isFault prev = true →
      handleFinished st r = .ok (storeErase st (generateId r),
        some { jsMerge prev r with event := prev.event, kind := prev.event })) := by
  refine ⟨⟨rfl, rfl, rfl, ⟨str "boom", rfl, ⟨[], [], by simp⟩⟩, rfl⟩, ?_⟩
  intro st r prev hprev hfault
  simp [handleFinished, hprev, hfault]

theorem C2_correlationMerge_witness :
    handleFinished [(str "t-1", boomFaultRec)] doneRec =
      .ok (storeErase [(str "t-1", boomFaultRec)] (generateId doneRec),
        some { jsMerge boomFaultRec doneRec with
          event := boomFaultRec.event, kind := boomFaultRec.event }) :=
  C2_correlationMerge.2 [(str "t-1", boomFaultRec)] doneRec boomFaultRec rfl rfl

def KeysNodup (st : Store) : Prop := (st.map Prod.fst).Nodup

theorem mem_keys_storeSet (st : Store) (k : List Char) (v : TCRecord) (k' : List Char) :
    k' ∈ (storeSet st k v).map Prod.fst ↔ k' ∈ st.map Prod.fst ∨ k' = k := by
  induction st with
  | nil => simp [storeSet]
  | cons hd tl ih =>
    obtain ⟨k'', v''⟩ := hd
    by_cases h : k'' = k
    · subst h
      simp only [storeSet, if_pos rfl, List.map_cons]
      constructor
      · intro hm
        exact Or.inl hm
      · rintro (hm | hm)
        · exact hm
        · rw [hm]
          exact List.mem_cons_self _ _
    · simp only [storeSet, h, if_false, List.map_cons, List.mem_cons, ih]
      constructor
      · rintro (hm | hm | hm)
        · exact Or.inl (Or.inl hm)
        · exact Or.inl (Or.inr hm)
        · exact Or.inr hm
      · rintro ((hm | hm) | hm)
        · exact Or.inl hm
        · exact Or.inr (Or.inl hm)
        · exact Or.inr (Or.inr hm)

theorem keysNodup_storeSet (st : Store) (k : List Char) (v : TCRecord)
    (h : KeysNodup st) : KeysNodup (storeSet st k v) := by
  induction st with
  | nil =>
    simp only [storeSet, KeysNodup, List.map_cons, List.map_nil]
    exact List.nodup_singleton k
  | cons hd tl ih =>
    obtain ⟨k'', v''⟩ := hd
    simp only [KeysNodup, List.map_cons, List.nodup_cons] at h
    by_cases hk : k'' = k
    · subst hk
      rw [show storeSet ((k'', v'') :: tl) k'' v = (k'', v) :: tl from by simp [storeSet]]
      simp only [KeysNodup, List.map_cons, List.nodup_cons]
      exact h
    · have htl := ih h.2
      simp only [storeSet, hk, if_false, KeysNodup, List.map_cons, List.nodup_cons]
      refine ⟨?_, htl⟩
      intro hmem
      rcases (mem_keys_storeSet tl k v k'').mp hmem with hm | hm
      · exact h.1 hm
      · exact hk hm

theorem keysNodup_storeErase (st : Store) (k : List Char) (h : KeysNodup st) :
    KeysNodup (storeErase st k) :=
  h.sublist ((List.filter_sublist st).map Prod.fst)

theorem stepEntry_not_erase (entry : Option TCRecord) (r : TCRecord)
    (op : EntryOp) (o : Option TCRecord)
    (h : stepEntry entry r = .ok (op, o))
    (hF : ¬(r.event = some (str "testSuiteFinished") ∨
      r.event = some (str "testFinished"))) : op ≠ EntryOp.erase := by
  by_cases hT : isTestResult r
  · by_cases hS : r.event = some (str "testSuiteStarted") ∨
        r.event = some (str "testStarted")
    · simp [stepEntry, hT, hS] at h
      obtain ⟨h1, -⟩ := h
      intro hc
      subst hc
      simp at h1
    · by_cases hFa : r.event = some (str "testFailed") ∨
          r.event = some (str "testIgnored")
      · cases hget : entry with
        | none =>
          simp [stepEntry, hT, hS, hF, hFa, hget] at h
          obtain ⟨h1, -⟩ := h
          intro hc
          subst hc
          simp at h1
        | some prev =>
          by_cases hk : prev.kind = some (str "testStarted")
          · simp [stepEntry, hT, hS, hF, hFa, hget, hk] at h
            obtain ⟨h1, -⟩ := h
            intro hc
            subst hc
            simp at h1
          · cases hd1 : prev.details with
            | none => simp [stepEntry, hT, hS, hF, hFa, hget, hk, hd1] at h
            | some d1 =>
              cases hd2 : r.details with
              | none => simp [stepEntry, hT, hS, hF, hFa, hget, hk, hd1, hd2] at h
              | some d2 =>
                simp [stepEntry, hT, hS, hF, hFa, hget, hk, hd1, hd2] at h
                obtain ⟨h1, -⟩ := h
                intro hc
                subst hc
                simp at h1
      · simp [stepEntry, hT, hS, hF, hFa] at h
        obtain ⟨h1, -⟩ := h
        intro hc
        subst hc
        simp at h1
  · simp [stepEntry, hT] at h
    obtain ⟨h1, -⟩ := h
    intro hc
    subst hc
    simp at h1

theorem stepEntry_finished_erase (entry : Option TCRecord) (r : TCRecord)
    (op : EntryOp) (o : Option TCRecord)
    (h : stepEntry entry r = .ok (op, o)) (hT : isTestResult r = true)
    (hFin : r.event = some (str "testSuiteFinished") ∨
      r.event = some (str "testFinished")) : op = EntryOp.erase := by
  have hS : ¬(r.event = some (str "testSuiteStarted") ∨
      r.event = some (str "testStarted")) := by
    rcases hFin with hc | hc <;> rw [hc] <;> rintro (h' | h') <;>
      exact absurd h' (by decide)
  cases hget : entry with
  | none => simp [stepEntry, hT, hS, hFin, hget] at h
  | some prev =>
    simp [stepEntry, hT, hS, hFin, hget] at h
    exact h.1.symm

theorem storeGet_applyOp_ne (st : Store) (k : List Char) (op : EntryOp)
    (k' : List Char) (h : k' ≠ k) :
    storeGet (applyOp st k op) k' = storeGet st k' := by
  cases op with
  | set v => exact storeGet_set_ne st k v k' h
  | erase => exact storeGet_erase_ne st k k' h
  | keep => rfl

theorem storeGet_applyOp_self (st : Store) (k : List Char) (op : EntryOp) :
    storeGet (applyOp st k op) k =
      match op with
      | .set v => some v
      | .erase => none
      | .keep => storeGet st k := by
  cases op with
  | set v => exact storeGet_set_self st k v
  | erase => exact storeGet_erase_self st k
  | keep => rfl

/-- C5: keys stay pairwise distinct (the store holds at most one record per
key); processing any record that is not Finished/SuiteFinished never removes
an entry; processing a Finished/SuiteFinished record removes exactly its own
key's entry and leaves every other key untouched. -/
theorem C5_storeInvariant (st : Store) (r : TCRecord) (hnd : KeysNodup st)
    (st' : Store) (out : Option TCRecord)
    (h : matcherParse st (some r) = .ok (st', out)) :
    KeysNodup st' ∧
    (¬(r.event = some (str "testSuiteFinished") ∨ r.event = some (str "testFinished")) →
      ∀ k, (storeGet st k).isSome = true → (storeGet st' k).isSome = true) ∧
    ((r.event = some (str "testSuiteFinished") ∨ r.event = some (str "testFinished")) →
      isTestResult r = true →
      storeGet st' (generateId r) = none ∧
      ∀ k, k ≠ generateId r → storeGet st' k = storeGet st k) := by
  rw [matcherParse_eq_stepEntry] at h
  cases hse : stepEntry (storeGet st (generateId r)) r with
  | error e =>
    rw [hse] at h
    simp [Except.map] at h
  | ok p =>
    obtain ⟨op, o⟩ := p
    rw [hse] at h
    simp only [Except.map, Except.ok.injEq, Prod.mk.injEq] at h
    obtain ⟨hst, hout⟩ := h
    subst hst
    refine ⟨?_, ?_, ?_⟩
    · cases op with
      | set v => exact keysNodup_storeSet st _ v hnd
      | erase => exact keysNodup_storeErase st _ hnd
      | keep => exact hnd
    · intro hF k hk
      have hne := stepEntry_not_erase _ _ _ _ hse hF
      cases op with
      | set v =>
        by_cases hkk : k = generateId r
        · subst hkk
          simp [applyOp, storeGet_set_self]
        · have := storeGet_set_ne st (generateId r) v k hkk
          simpa [applyOp, this] using hk
      | erase => exact absurd rfl hne
      | keep => exact hk
    · intro hFin hT
      have hop := stepEntry_finished_erase _ _ _ _ hse hT hFin
      subst hop
      exact ⟨storeGet_erase_self st _, fun k hk => storeGet_erase_ne st _ k hk⟩

theorem C5_storeInvariant_witness :
    KeysNodup [(str "t-1", startedRec)] ∧
    (¬(startedRec.event = some (str "testSuiteFinished") ∨
        startedRec.event = some (str "testFinished")) →
      ∀ k, (storeGet [] k).isSome = true →
        (storeGet [(str "t-1", startedRec)] k).isSome = true) ∧
    ((startedRec.event = some (str "testSuiteFinished") ∨
        startedRec.event = some (str "testFinished")) →
      isTestResult startedRec = true →
      storeGet [(str "t-1", startedRec)] (generateId startedRec) = none ∧
      ∀ k, k ≠ generateId startedRec →
        storeGet [(str "t-1", startedRec)] k = storeGet [] k) :=
  C5_storeInvariant [] startedRec (by simp [KeysNodup]) [(str "t-1", startedRec)]
    (some startedRec) rfl

theorem stepEntry_out_key (entry : Option TCRecord) (r : TCRecord) (op : EntryOp)
    (o : TCRecord) (h : stepEntry entry r = .ok (op, some o))
    (hT : isTestResult r = true) : generateId o = generateId r := by
  obtain ⟨nm, hnm⟩ : ∃ nm, r.name = some nm := by
    cases hname : r.name with
    | none => simp [isTestResult, hname] at hT
    | some nm => exact ⟨nm, rfl⟩
  obtain ⟨fid, hfid⟩ : ∃ fid, r.flowId = some fid := by
    cases hflow : r.flowId with
    | none => simp [isTestResult, hflow] at hT
    | some fid => exact ⟨fid, rfl⟩
  by_cases hS : r.event = some (str "testSuiteStarted") ∨ r.event = some (str "testStarted")
  · simp [stepEntry, hT, hS] at h
    rw [← h.2]
  · by_cases hF : r.event = some (str "testSuiteFinished") ∨
        r.event = some (str "testFinished")
    · cases hget : entry with
      | none => simp [stepEntry, hT, hS, hF, hget] at h
      | some prev =>
        simp [stepEntry, hT, hS, hF, hget] at h
        rw [← h.2]
        simp [generateId, jsMerge, oMerge, hnm, hfid]
    · by_cases hFa : r.event = some (str "testFailed") ∨ r.event = some (str "testIgnored")
      · cases hget : entry with
        | none => simp [stepEntry, hT, hS, hF, hFa, hget] at h
        | some prev =>
          by_cases hk : prev.kind = some (str "testStarted")
          · simp [stepEntry, hT, hS, hF, hFa, hget, hk] at h
          · cases hd1 : prev.details with
            | none => simp [stepEntry, hT, hS, hF, hFa, hget, hk, hd1] at h
            | some d1 =>
              cases hd2 : r.details with
              | none => simp [stepEntry, hT, hS, hF, hFa, hget, hk, hd1, hd2] at h
              | some d2 => simp [stepEntry, hT, hS, hF, hFa, hget, hk, hd1, hd2] at h
      · simp [stepEntry, hT, hS, hF, hFa] at h

theorem runSeq_cons_ok (st : Store) (r : TCRecord) (rs : List TCRecord)
    (stf : Store) (outs : List TCRecord)
    (h : runSeq st (r :: rs) = .ok (stf, outs)) :
    ∃ stm out outs', matcherParse st (some r) = .ok (stm, out) ∧
      runSeq stm rs = .ok (stf, outs') ∧ outs = out.toList ++ outs' := by
  cases hm : matcherParse st (some r) with
  | error e =>
    simp only [runSeq, hm] at h
    exact Except.noConfusion h
  | ok p =>
    obtain ⟨stm, out⟩ := p
    simp only [runSeq, hm] at h
    cases hr : runSeq stm rs with
    | error e =>
      simp only [hr] at h
      exact Except.noConfusion h
    | ok q =>
      obtain ⟨stf', outs'⟩ := q
      simp only [hr, Except.ok.injEq, Prod.mk.injEq] at h
      obtain ⟨h1, h2⟩ := h
      subst h1
      exact ⟨stm, out, outs', rfl, hr, h2.symm⟩

/-- The Interleaves relation: `l` is an interleaving of `a` and `b`. -/
inductive Interleaves : List TCRecord → List TCRecord → List TCRecord → Prop
  | nil : Interleaves [] [] []
  | left {l a b : List TCRecord} {x : TCRecord} :
      Interleaves l a b → Interleaves (x :: l) (x :: a) b
  | right {l a b : List TCRecord} {x : TCRecord} :
      Interleaves l a b → Interleaves (x :: l) a (x :: b)

theorem runSeq_interleave (k1 k2 : List Char) (hk : k1 ≠ k2)
    (l a b : List TCRecord) (hI : Interleaves l a b) :
    ∀ (st st1 st2 : Store),
      (∀ r ∈ a, isTestResult r = true ∧ generateId r = k1) →
      (∀ r ∈ b, isTestResult r = true ∧ generateId r = k2) →
      storeGet st k1 = storeGet st1 k1 →
      storeGet st k2 = storeGet st2 k2 →
      ∀ sta outa stb outb,
        runSeq st1 a = .ok (sta, outa) →
        runSeq st2 b = .ok (stb, outb) →
        ∃ st' outs, runSeq st l = .ok (st', outs) ∧
          outs.filter (fun o => generateId o == k1) = outa ∧
          outs.filter (fun o => generateId o == k2) = outb := by
  induction hI with
  | nil =>
    intro st st1 st2 _ _ _ _ sta outa stb outb hra hrb
    simp only [runSeq, Except.ok.injEq, Prod.mk.injEq] at hra hrb
    exact ⟨st, [], rfl, by simp [← hra.2], by simp [← hrb.2]⟩
  | @left l' a' b' x hI' ih =>
    intro st st1 st2 ha hb hg1 hg2 sta outa stb outb hra hrb
    obtain ⟨hxT, hxk⟩ := ha x (by simp)
    obtain ⟨stm1, out1, outa', hm1, hrest1, houta⟩ := runSeq_cons_ok _ _ _ _ _ hra
    rw [matcherParse_eq_stepEntry] at hm1
    cases hse : stepEntry (storeGet st1 (generateId x)) x with
    | error e =>
      rw [hse] at hm1
      simp [Except.map] at hm1
    | ok p =>
      obtain ⟨op, o⟩ := p
      rw [hse] at hm1
      simp only [Except.map, Except.ok.injEq, Prod.mk.injEq] at hm1
      obtain ⟨hstm1, hout1⟩ := hm1
      subst hstm1
      subst hout1
      have hsame : storeGet st (generateId x) = storeGet st1 (generateId x) := by
        rw [hxk]
        exact hg1
      have hmx : matcherParse st (some x) = .ok (applyOp st (generateId x) op, o) := by
        rw [matcherParse_eq_stepEntry, hsame, hse]
        rfl
      have hg1' : storeGet (applyOp st (generateId x) op) k1 =
          storeGet (applyOp st1 (generateId x) op) k1 := by
        rw [← hxk, storeGet_applyOp_self, storeGet_applyOp_self]
        cases op <;> simp
        exact hsame
      have hg2' : storeGet (applyOp st (generateId x) op) k2 = storeGet st2 k2 := by
        rw [storeGet_applyOp_ne _ _ _ _ (by rw [hxk]; exact hk.symm)]
        exact hg2
      obtain ⟨st', outs', hrun', hf1, hf2⟩ :=
        ih (applyOp st (generateId x) op) (applyOp st1 (generateId x) op) st2
          (fun r hr => ha r (by simp [hr])) hb hg1' hg2'
          sta outa' stb outb hrest1 hrb
      refine ⟨st', o.toList ++ outs', ?_, ?_, ?_⟩
      · simp only [runSeq, hmx, hrun']
      · cases o with
        | none => simp [houta, hf1]
        | some orec =>
          have hko : generateId orec = generateId x := stepEntry_out_key _ _ _ _ hse hxT
          simp [houta, hf1, hko, hxk]
      · cases o with
        | none => simp [hf2]
        | some orec =>
          have hko : generateId orec = generateId x := stepEntry_out_key _ _ _ _ hse hxT
          have : generateId orec ≠ k2 := by
            rw [hko, hxk]
            exact hk
          simp [hf2, this]
  | @right l' a' b' x hI' ih =>
    intro st st1 st2 ha hb hg1 hg2 sta outa stb outb hra hrb
    obtain ⟨hxT, hxk⟩ := hb x (by simp)
    obtain ⟨stm2, out2, outb', hm2, hrest2, houtb⟩ := runSeq_cons_ok _ _ _ _ _ hrb
    rw [matcherParse_eq_stepEntry] at hm2
    cases hse : stepEntry (storeGet st2 (generateId x)) x with
    | error e =>
      rw [hse] at hm2
      simp [Except.map] at hm2
    | ok p =>
      obtain ⟨op, o⟩ := p
      rw [hse] at hm2
      simp only [Except.map, Except.ok.injEq, Prod.mk.injEq] at hm2
      obtain ⟨hstm2, hout2⟩ := hm2
      subst hstm2
      subst hout2
      have hsame : storeGet st (generateId x) = storeGet st2 (generateId x) := by
        rw [hxk]
        exact hg2
      have hmx : matcherParse st (some x) = .ok (applyOp st (generateId x) op, o) := by
        rw [matcherParse_eq_stepEntry, hsame, hse]
        rfl
      have hg2' : storeGet (applyOp st (generateId x) op) k2 =
          storeGet (applyOp st2 (generateId x) op) k2 := by
        rw [← hxk, storeGet_applyOp_self, storeGet_applyOp_self]
        cases op <;> simp
        exact hsame
      have hg1' : storeGet (applyOp st (generateId x) op) k1 = storeGet st1 k1 := by
        rw [storeGet_applyOp_ne _ _ _ _ (by rw [hxk]; exact hk)]
        exact hg1
      obtain ⟨st', outs', hrun', hf1, hf2⟩ :=
        ih (applyOp st (generateId x) op) st1 (applyOp st2 (generateId x) op)
          ha (fun r hr => hb r (by simp [hr])) hg1' hg2'
          sta outa stb outb' hra hrest2
      refine ⟨st', o.toList ++ outs', ?_, ?_, ?_⟩
      · simp only [runSeq, hmx, hrun']
      · cases o with
        | none => simp [hf1]
        | some orec =>
          have hko : generateId orec = generateId x := stepEntry_out_key _ _ _ _ hse hxT
          have : generateId orec ≠ k1 := by
            rw [hko, hxk]
            exact hk.symm
          simp [hf1, this]
      · cases o with
        | none => simp [houtb, hf2]
        | some orec =>
          have hko : generateId orec = generateId x := stepEntry_out_key _ _ _ _ hse hxT
          simp [houtb, hf2, hko, hxk]

/-- C6: for two keys with distinct (name, flowId), any interleaving of the
two per-key record sequences produces, per key, exactly the outputs (started
echoes and the one terminal record) that the key's sequence produces when
run alone. -/
theorem C6_flowIndependence (k1 k2 : List Char) (l a b : List TCRecord)
    (hk : k1 ≠ k2) (hI : Interleaves l a b)
    (ha : ∀ r ∈ a, isTestResult r = true ∧ generateId r = k1)
    (hb : ∀ r ∈ b, isTestResult r = true ∧ generateId r = k2)
    (sta : Store) (outa : List TCRecord) (stb : Store) (outb : List TCRecord)
    (hra : runSeq [] a = .ok (sta, outa)) (hrb : runSeq [] b = .ok (stb, outb)) :
    ∃ st' outs, runSeq [] l = .ok (st', outs) ∧
      outs.filter (fun o => generateId o == k1) = outa ∧
      outs.filter (fun o => generateId o == k2) = outb :=
  runSeq_interleave k1 k2 hk l a b hI [] [] [] ha hb rfl rfl sta outa stb outb hra hrb

def f1Rec : TCRecord :=
  ⟨some (str "testFailed"), some (str "t"), some 1, some (str "testFailed"),
   some (str "x"), none, some []⟩

def fin1Rec : TCRecord :=
  ⟨some (str "testFinished"), some (str "t"), some 1, some (str "testFinished"),
   none, some 7, none⟩

def s2Rec : TCRecord :=
  ⟨some (str "testStarted"), some (str "t"), some 2, some (str "testStarted"),
   none, none, none⟩

def fin2Rec : TCRecord :=
  ⟨some (str "testFinished"), some (str "t"), some 2, some (str "testFinished"),
   none, some 9, none⟩

def c6Term1 : TCRecord :=
  ⟨some (str "testFailed"), some (str "t"), some 1, some (str "testFailed"),
   some (str "x"), some 7, some []⟩

def c6Term2 : TCRecord :=
  ⟨some (str "testFinished"), some (str "t"), some 2, some (str "testFinished"),
   none, some 9, none⟩

theorem C6_flowIndependence_witness :
    ∃ st' outs,
      runSeq [] [startedRec, s2Rec, f1Rec, fin2Rec, fin1Rec] = .ok (st', outs) ∧
      outs.filter (fun o => generateId o == str "t-1") = [startedRec, c6Term1] ∧
      outs.filter (fun o => generateId o == str "t-2") = [s2Rec, c6Term2] :=
  C6_flowIndependence (str "t-1") (str "t-2")
    [startedRec, s2Rec, f1Rec, fin2Rec, fin1Rec]
    [startedRec, f1Rec, fin1Rec] [s2Rec, fin2Rec] (by decide)
    (Interleaves.left (Interleaves.right (Interleaves.left
      (Interleaves.right (Interleaves.left Interleaves.nil)))))
    (by decide) (by decide) [] [startedRec, c6Term1] [] [s2Rec, c6Term2] rfl rfl

def faultARec : TCRecord :=
  ⟨some (str "testFailed"), some (str "t"), some 1, some (str "testFailed"),
   some (str "A"), none, some [⟨str "/a.php", 1⟩]⟩

def faultBRec : TCRecord :=
  ⟨some (str "testFailed"), some (str "t"), some 1, some (str "testFailed"),
   some (str "B"), none, some [⟨str "/b.php", 2⟩]⟩

def c4Term : TCRecord :=
  ⟨some (str "testFailed"), some (str "t"), some 1, some (str "testFailed"),
   some (str "A\n\nB"), some 12, some [⟨str "/a.php", 1⟩, ⟨str "/b.php", 2⟩]⟩

/-- C4: two Failed records "A" then "B" for one key before Finished yield a
terminal message `"A\n\nB"` and details equal to the first fault's entries
followed by the second's; and within one fault record `parseDetails` puts
the entries extracted from the message body before those extracted from the
explicit details field. -/
theorem C4_multiFault :
    (runSeq [] [startedRec, faultARec, faultBRec, doneRec] =
        .ok ([], [startedRec, c4Term]) ∧
      c4Term.message = some (str "A\n\nB") ∧
      c4Term.details = some [⟨str "/a.php", 1⟩, ⟨str "/b.php", 2⟩]) ∧
    (∀ m d : List Char,
      (parseDetails m d).2 = parseFileAndLine m ++ parseFileAndLine d) ∧
    (parseDetails (str "failed\n/a.php:10") (str "/b.php:2") =
      (str "failed", [⟨str "/a.php", 10⟩, ⟨str "/b.php", 2⟩])) := by
  exact ⟨⟨rfl, rfl, rfl⟩, fun m d => rfl, by decide⟩
